import Mathlib

/-
  Shallow embedding of `beamer2rmd_v2.py` (function `beamer_to_rmarkdown` and its
  helpers) over `List Char`.  Each Python regex pass is embedded as an explicit
  scanner implementing the exact leftmost-match semantics of the pattern used in
  the source; `re.sub` is modelled by `replaceAll`, which scans left to right and
  never rescans replacement text.  All recursion is structural (fuel bounded by
  the input length where needed) so that every definition reduces in the kernel.
-/

namespace B2R

/-- ASCII whitespace, as accepted by Python `str.strip` and regex `\s`
on the (ASCII) inputs of this development. -/
def isWs (c : Char) : Bool :=
  c == ' ' || c == '\t' || c == '\n' || c == '\r' || c == '\x0b' || c == '\x0c'

def lstrip (s : List Char) : List Char := s.dropWhile isWs

def rstrip (s : List Char) : List Char := (s.reverse.dropWhile isWs).reverse

/-- Python `str.strip()`. -/
def strip (s : List Char) : List Char := lstrip (rstrip s)

/-- Split off the maximal leading run of whitespace (regex `\s*`, greedy). -/
def spanWs (s : List Char) : List Char × List Char := (s.takeWhile isWs, s.dropWhile isWs)

/-- Strip a literal from the front, or fail. -/
def dropLit (pat s : List Char) : Option (List Char) :=
  if pat.isPrefixOf s then some (s.drop pat.length) else none

def findSub (pat : List Char) : List Char → Option Nat
  | [] => if pat = [] then some 0 else none
  | c :: t => if pat.isPrefixOf (c :: t) then some 0 else (findSub pat t).map (· + 1)

/-- Python `pat in s` (substring test). -/
def containsSub (pat s : List Char) : Bool := (findSub pat s).isSome

/-- Lazy `(.*?)lit` with DOTALL: capture up to the first occurrence of the
literal, returning the capture and the text after the literal. -/
def splitAtSub (pat : List Char) : List Char → Option (List Char × List Char)
  | [] => if pat = [] then some ([], []) else none
  | c :: t =>
    if pat.isPrefixOf (c :: t) then some ([], (c :: t).drop pat.length)
    else (splitAtSub pat t).map (fun p => (c :: p.1, p.2))

def consFirst (c : Char) : List (List Char) → List (List Char)
  | [] => [[c]]
  | h :: r => (c :: h) :: r

/-- Python `s.split(d)` for a one-character separator. -/
def splitChar (d : Char) : List Char → List (List Char)
  | [] => [[]]
  | c :: t => if c == d then [] :: splitChar d t else consFirst c (splitChar d t)

/-- Python `sep.join(xs)`. -/
def joinSep (sep : List Char) : List (List Char) → List Char
  | [] => []
  | [x] => x
  | x :: y :: r => x ++ sep ++ joinSep sep (y :: r)

/-- Lazy `(.*?)lit` where `.` does not match a newline (no DOTALL). -/
def splitAtSubLine (pat : List Char) : List Char → Option (List Char × List Char)
  | [] => none
  | c :: t =>
    if pat.isPrefixOf (c :: t) then some ([], (c :: t).drop pat.length)
    else if c == '\n' then none
    else (splitAtSubLine pat t).map (fun p => (c :: p.1, p.2))

/-- `([ class ]+)close`: capture a nonempty run of characters satisfying
`allowed` (checked only after `close` fails) up to the first `close`
character, consuming it.  Mirrors greedy character classes followed by a
literal, which match deterministically. -/
def takeUntilChar (close : Char) (allowed : Char → Bool) : List Char → Option (List Char × List Char)
  | [] => none
  | c :: t =>
    if c == close then some ([], t)
    else if allowed c then (takeUntilChar close allowed t).map (fun p => (c :: p.1, p.2))
    else none

/--
`re.sub`, generically: `m` is attempted at every position; on input `s`
(the suffix starting at the current position) it returns the replacement
text and the number of characters consumed (always ≥ 1 for the matchers of
this file; a reported consumption of 0 is treated as no match).  Scanning
resumes after the consumed characters; replacements are not rescanned.
Fuel-driven so that it reduces in the kernel; `replaceAll` supplies fuel
`length + 1`, which is never exhausted because every match consumes ≥ 1.
-/
def replaceAllF (m : List Char → Option (List Char × Nat)) : Nat → List Char → List Char
  | 0, s => s
  | _ + 1, [] => []
  | f + 1, c :: t =>
    match m (c :: t) with
    | some (r, k + 1) => r ++ replaceAllF m f (t.drop k)
    | _ => c :: replaceAllF m f t

def replaceAll (m : List Char → Option (List Char × Nat)) (s : List Char) : List Char :=
  replaceAllF m (s.length + 1) s

/-- Python `s.replace(pat, repl)` (all occurrences, left to right). -/
def replaceSub (pat repl : List Char) (s : List Char) : List Char :=
  replaceAll (fun t => if pat ≠ [] ∧ pat.isPrefixOf t then some (repl, pat.length) else none) s

/-- `re.split` on a literal pattern (leftmost, non-overlapping). -/
def splitSubF (pat : List Char) : Nat → List Char → List (List Char)
  | 0, s => [s]
  | _ + 1, [] => [[]]
  | f + 1, c :: t =>
    if pat ≠ [] ∧ pat.isPrefixOf (c :: t) then [] :: splitSubF pat f (t.drop (pat.length - 1))
    else consFirst c (splitSubF pat f t)

def splitSub (pat s : List Char) : List (List Char) := splitSubF pat (s.length + 1) s

/-! ### Metadata extraction (source lines 16-22)

`re.search(r'\\title\[(.*?)\]{(.*?)}', latex_text)` and likewise for
`\author` and `\institute`.  Without DOTALL neither capture may contain a
newline, so the whole match lies on one line; lazy backtracking reduces to:
at the first position where the literal command-plus-bracket matches and the
rest of the line contains an `]` immediately followed by `{` and, after it, a
`}`, capture accordingly.  Returns `(group1, group2)`. -/

/-- Scan for the first `]` immediately followed by `{`, failing at a newline
(the lazy first capture of the bracketed metadata pattern). -/
def takeToBrkBrace : List Char → Option (List Char × List Char)
  | [] => none
  | c :: t =>
    if c == ']' && (t.head? == some '\x7b') then some ([], t.tail)
    else if c == '\n' then none
    else (takeToBrkBrace t).map (fun p => (c :: p.1, p.2))

def bracketCmdSearch (cmd : List Char) : List Char → Option (List Char × List Char)
  | [] => none
  | c :: t =>
    match dropLit cmd (c :: t) with
    | some r =>
      match takeToBrkBrace r with
      | some (g1, r2) =>
        match splitAtSubLine ("\x7d".toList) r2 with
        | some (g2, _) => some (g1, g2)
        | none => bracketCmdSearch cmd t
      | none => bracketCmdSearch cmd t
    | none => bracketCmdSearch cmd t

/-- The extracted `(title, author, institute)` with the source's defaults. -/
def metaOf (t : List Char) : List Char × List Char × List Char :=
  let ti := match bracketCmdSearch ("\\title[".toList) t with
    | some p => p.2
    | none => "Untitled Presentation".toList
  let au := match bracketCmdSearch ("\\author[".toList) t with
    | some p => p.2
    | none => "Unknown Author".toList
  let inst := match bracketCmdSearch ("\\institute[".toList) t with
    | some p => p.2
    | none => []
  (ti, au, inst)

/-! ### Front-matter header (source lines 25-59) -/

def hdrTop : List Char := "---\ntitle: \"".toList

def hdrMid : List Char := "\"\nauthor: \"".toList

/-- Tail of the widescreen header f-string (after the author interpolation). -/
def hdrTailWide : List Char :=
  ("\"\ndate: \"`r Sys.Date()`\"\noutput: \n  ioslides_presentation:\n    toc: true\n" ++
   "    mathjax: true\n    widescreen: true\n    highlight: tango\n---\n<style>\narticle \x7b\n" ++
   "  color: #000000;\n\x7d\n</style>\n").toList

/-- Tail of the non-widescreen header f-string. -/
def hdrTailStd : List Char :=
  ("\"\ndate: \"`r Sys.Date()`\"\noutput: \n  ioslides_presentation:\n    toc: true\n" ++
   "    mathjax: true\n    highlight: tango\n---\n<style>\narticle \x7b\n" ++
   "  color: #000000;\n\x7d\n</style>\n").toList

def headerOf (widescreen : Bool) (title author : List Char) : List Char :=
  hdrTop ++ title ++ hdrMid ++ author ++ (if widescreen then hdrTailWide else hdrTailStd)

/-! ### Section translator (source line 62): `\section{(.*?)}` → `## \1` -/

def mSection (s : List Char) : Option (List Char × Nat) :=
  match dropLit ("\\section\x7b".toList) s with
  | none => none
  | some r =>
    match splitAtSubLine ("\x7d".toList) r with
    | none => none
    | some (g, rest) => some ("## ".toList ++ g, s.length - rest.length)

def sectionSub (s : List Char) : List Char := replaceAll mSection s

/-! ### Listing / verbatim translator (source lines 65-88) -/

def isWordChar (c : Char) : Bool := c.isAlpha || c.isDigit || c == '_' || c == '.'

/-- `([a-zA-Z0-9_\.]+)\$\$([a-zA-Z0-9_\.]+)` → `\1$\2`. -/
def mDollar (s : List Char) : Option (List Char × Nat) :=
  let w1 := s.takeWhile isWordChar
  if w1 = [] then none
  else
    match dropLit ("$$".toList) (s.drop w1.length) with
    | none => none
    | some r =>
      let w2 := r.takeWhile isWordChar
      if w2 = [] then none
      else some (w1 ++ "$".toList ++ w2, w1.length + 2 + w2.length)

def code_listing_replacer (g : List Char) : List Char :=
  let c0 := strip g
  let c1 := replaceSub ("\\".toList) ("\\\\".toList) c0
  let c2 := replaceAll mDollar c1
  "\n```r\n".toList ++ c2 ++ "\n```\n".toList

def mLstlisting (s : List Char) : Option (List Char × Nat) :=
  match dropLit ("\\begin\x7blstlisting\x7d".toList) s with
  | none => none
  | some r =>
    match splitAtSub ("\\end\x7blstlisting\x7d".toList) r with
    | none => none
    | some (g, rest) => some (code_listing_replacer g, s.length - rest.length)

def mVerbatim (s : List Char) : Option (List Char × Nat) :=
  match dropLit ("\\begin\x7bverbatim\x7d".toList) s with
  | none => none
  | some r =>
    match splitAtSub ("\\end\x7bverbatim\x7d".toList) r with
    | none => none
    | some (g, rest) => some ("\n```\n".toList ++ strip g ++ "\n```\n".toList, s.length - rest.length)

def lstlistingSub (s : List Char) : List Char := replaceAll mLstlisting s

def verbatimSub (s : List Char) : List Char := replaceAll mVerbatim s

/-! ### Typography normalizer (source lines 91-125)

`fix_font_size_commands` searches for
`\\(scriptsize|tiny|small|large|Large|LARGE|huge|Huge)\s*{`, walks a brace
counter to the matching close, splices the wrapper out, and repeats; if no
matching close exists it stops, returning the text as-is. -/

def fontNames : List (List Char) :=
  ["scriptsize".toList, "tiny".toList, "small".toList, "large".toList,
   "Large".toList, "LARGE".toList, "huge".toList, "Huge".toList]

def findName : List (List Char) → List Char → Option (List Char × List Char)
  | [], _ => none
  | n :: ns, t => if n.isPrefixOf t then some (n, t.drop n.length) else findName ns t

/-- If the text begins with a font-size command match, return the matched text
(`\cmd` + whitespace + `{`) and the rest. -/
def fontCmdAt : List Char → Option (List Char × List Char)
  | [] => none
  | c :: t =>
    if c == '\\' then
      match findName fontNames t with
      | some (n, r) =>
        let w := r.takeWhile isWs
        match r.drop w.length with
        | b :: r3 => if b == '\x7b' then some (c :: (n ++ w ++ [b]), r3) else none
        | [] => none
      | none => none
    else none

/-- Leftmost font-size command match: `(prefix, matched, rest)`. -/
def searchFont : List Char → Option (List Char × List Char × List Char)
  | [] => none
  | c :: t =>
    match fontCmdAt (c :: t) with
    | some (m, r) => some ([], m, r)
    | none => (searchFont t).map (fun p => (c :: p.1, p.2))

/-- Brace-depth scan from depth `d`; on the close that returns the depth to
zero, yields the content before it and the tail after it. -/
def findCloseB (d : Nat) : List Char → Option (List Char × List Char)
  | [] => none
  | c :: t =>
    if c == '\x7b' then (findCloseB (d + 1) t).map (fun p => (c :: p.1, p.2))
    else if c == '\x7d' then
      if d = 1 then some ([], t)
      else (findCloseB (d - 1) t).map (fun p => (c :: p.1, p.2))
    else (findCloseB d t).map (fun p => (c :: p.1, p.2))

def fontLoop : Nat → List Char → List Char
  | 0, s => s
  | f + 1, s =>
    match searchFont s with
    | none => s
    | some (pre, _, r) =>
      match findCloseB 1 r with
      | none => s
      | some (content, tail) => fontLoop f (pre ++ content ++ tail)

def fix_font_size_commands (s : List Char) : List Char := fontLoop (s.length + 1) s

/-! ### Table translator (source lines 134-228) -/

/-- First match of `\\begin{tabular}{([^}]+)}(.*?)\\end{tabular}` (DOTALL):
returns `(column spec, body)`. -/
def tabularSearch : List Char → Option (List Char × List Char)
  | [] => none
  | c :: t =>
    match dropLit ("\\begin\x7btabular\x7d\x7b".toList) (c :: t) with
    | some r =>
      match takeUntilChar '\x7d' (fun _ => true) r with
      | some (g1, r2) =>
        if g1 = [] then tabularSearch t
        else
          match splitAtSub ("\\end\x7btabular\x7d".toList) r2 with
          | some (g2, _) => some (g1, g2)
          | none => tabularSearch t
      | none => tabularSearch t
    | none => tabularSearch t

/-- First match of `\\caption{(.*?)}` (no DOTALL): the caption text. -/
def captionSearch : List Char → Option (List Char)
  | [] => none
  | c :: t =>
    match dropLit ("\\caption\x7b".toList) (c :: t) with
    | some r =>
      match splitAtSubLine ("\x7d".toList) r with
      | some (g, _) => some g
      | none => captionSearch t
    | none => captionSearch t

/-- `'|' + '|'.join(['---'] * n) + '|'`. -/
def sepRowOf (n : Nat) : List Char :=
  "|".toList ++ joinSep "|".toList (List.replicate n "---".toList) ++ "|".toList

/-- Row loop of the tabular conversion: skip blank rows, split each row on
`&`, trim cells, emit a pipe row, and after the row of original index 0 emit
the `---` separator row. -/
def buildRows : Nat → List (List Char) → List (List Char)
  | _, [] => []
  | i, row :: rest =>
    if strip row = [] then buildRows (i + 1) rest
    else
      let cells := (splitChar '&' row).map strip
      let md := "| ".toList ++ joinSep " | ".toList cells ++ " |".toList
      if i = 0 then md :: sepRowOf cells.length :: buildRows (i + 1) rest
      else md :: buildRows (i + 1) rest

/-- Keep stripped lines that contain `|`, optionally also requiring that they
not start with a backslash, and wrap in newlines (both salvage branches). -/
def keepPipeLines (requireNoBackslash : Bool) (tc : List Char) : List Char :=
  let kept := (splitChar '\n' tc).filterMap (fun l =>
    if l.contains '|' && (!requireNoBackslash || !(("\\".toList).isPrefixOf (strip l)))
    then some (strip l) else none)
  "\n".toList ++ joinSep "\n".toList kept ++ "\n".toList

/-- Conversion of one tabular body into a Markdown pipe table. -/
def tabularToMd (body : List Char) : List Char :=
  let b1 := replaceSub ("\\toprule".toList) [] body
  let b2 := replaceSub ("\\midrule".toList) [] b1
  let b3 := replaceSub ("\\bottomrule".toList) [] b2
  joinSep "\n".toList (buildRows 0 (splitSub ("\\\\".toList) b3))

/-- `table_replacer` (source lines 134-211): `g0` is the whole matched
environment, `g1` the captured content. -/
def table_replacer (g0 g1 : List Char) : List Char :=
  let tc := strip g1
  if tc.contains '|' && containsSub ("---".toList) tc then keepPipeLines true tc
  else
    match tabularSearch tc with
    | none => if tc.contains '|' then keepPipeLines false tc else g0
    | some (_, body) =>
      let md := tabularToMd body
      let cap : List Char :=
        match captionSearch tc with
        | some c => if c ≠ [] then "**Table: ".toList ++ c ++ "**\n\n".toList else []
        | none => []
      "\n".toList ++ cap ++ md ++ "\n".toList

/-- `inline_table_replacer` (source lines 377-454): identical except that the
embedded-Markdown branch also fires when the content has more than ten `|`. -/
def inline_table_replacer (g0 g1 : List Char) : List Char :=
  let tc := strip g1
  if tc.contains '|' && (containsSub ("---".toList) tc || decide (10 < (tc.count '|'))) then
    keepPipeLines true tc
  else
    match tabularSearch tc with
    | none => if tc.contains '|' then keepPipeLines false tc else g0
    | some (_, body) =>
      let md := tabularToMd body
      let cap : List Char :=
        match captionSearch tc with
        | some c => if c ≠ [] then "**Table: ".toList ++ c ++ "**\n\n".toList else []
        | none => []
      "\n".toList ++ cap ++ md ++ "\n".toList

/-- `tabular_replacer` (source lines 462-500): a bare tabular environment. -/
def tabular_replacer (body : List Char) : List Char :=
  "\n".toList ++ tabularToMd body ++ "\n".toList

/-- `\\begin{table}(.*?)\\end{table}` (DOTALL) with a replacer on `(g0, g1)`. -/
def mTablePlain (rep : List Char → List Char → List Char) (s : List Char) :
    Option (List Char × Nat) :=
  match dropLit ("\\begin\x7btable\x7d".toList) s with
  | none => none
  | some r =>
    match splitAtSub ("\\end\x7btable\x7d".toList) r with
    | none => none
    | some (g1, rest) =>
      let n := s.length - rest.length
      some (rep (s.take n) g1, n)

/-- Scan for the first `]` immediately followed by `}` (DOTALL), as required
by `\[.*?\]}` after backtracking. -/
def takeToBrkRbrace : List Char → Option (List Char × List Char)
  | [] => none
  | c :: t =>
    if c == ']' && (t.head? == some '\x7d') then some ([], t.tail)
    else (takeToBrkRbrace t).map (fun p => (c :: p.1, p.2))

/-- `\\begin{table\s*\[.*?\]}(.*?)\\end{table}` (DOTALL). -/
def mTableBracket (rep : List Char → List Char → List Char) (s : List Char) :
    Option (List Char × Nat) :=
  match dropLit ("\\begin\x7btable".toList) s with
  | none => none
  | some r =>
    let r1 := r.dropWhile isWs
    match r1 with
    | '[' :: r2 =>
      match takeToBrkRbrace r2 with
      | none => none
      | some (_, r3) =>
        match splitAtSub ("\\end\x7btable\x7d".toList) r3 with
        | none => none
        | some (g1, rest) =>
          let n := s.length - rest.length
          some (rep (s.take n) g1, n)
    | _ => none

/-- `(.*?)\\end{table}\s*}` : content up to the first `\end{table}` that is
followed by optional whitespace and `}` (later occurrences are tried when the
trailing `}` is missing, matching lazy backtracking). -/
def takeToEndTableBrace : List Char → Option (List Char × List Char)
  | [] => none
  | c :: t =>
    match dropLit ("\\end\x7btable\x7d".toList) (c :: t) with
    | some r2 =>
      match r2.dropWhile isWs with
      | d :: r4 =>
        if d == '\x7d' then some ([], r4)
        else (takeToEndTableBrace t).map (fun p => (c :: p.1, p.2))
      | [] => (takeToEndTableBrace t).map (fun p => (c :: p.1, p.2))
    | none => (takeToEndTableBrace t).map (fun p => (c :: p.1, p.2))

/-- `\\begin{table}(.*?)\\end{table}\s*}` (DOTALL). -/
def mTableExtraBrace (rep : List Char → List Char → List Char) (s : List Char) :
    Option (List Char × Nat) :=
  match dropLit ("\\begin\x7btable\x7d".toList) s with
  | none => none
  | some r =>
    match takeToEndTableBrace r with
    | none => none
    | some (g1, rest) =>
      let n := s.length - rest.length
      some (rep (s.take n) g1, n)

/-- One `\|\s*---\s*\|\s*---\s*\|` separator unit of the pattern on source
line 225; returns the rest after it. -/
def sepUnit (s : List Char) : Option (List Char) :=
  match s with
  | '|' :: r =>
    match dropLit ("---".toList) (r.dropWhile isWs) with
    | none => none
    | some r2 =>
      match (r2.dropWhile isWs) with
      | '|' :: r3 =>
        match dropLit ("---".toList) (r3.dropWhile isWs) with
        | none => none
        | some r4 =>
          match (r4.dropWhile isWs) with
          | '|' :: r5 => some r5
          | _ => none
      | _ => none
  | _ => none

/-- `\s*\n` after greedy backtracking: consume a maximal whitespace run whose
final character is a newline. -/
def wsEndingNl (s : List Char) : Option (List Char) :=
  let w := s.takeWhile isWs
  if w ≠ [] ∧ w.getLast? = some '\n' then some (s.drop w.length) else none

/-- `(\s*\n\|\s*---\s*\|\s*---\s*\|)+` : one or more repetitions, greedily. -/
def sepUnitsPlus : Nat → List Char → Option (List Char)
  | 0, _ => none
  | f + 1, s =>
    match wsEndingNl s with
    | none => none
    | some r =>
      match sepUnit r with
      | none => none
      | some r2 =>
        match sepUnitsPlus f r2 with
        | some r3 => some r3
        | none => some r2

/-- Source line 225: collapse runs of consecutive two-column separator rows,
keeping the first. -/
def mSepCollapse (s : List Char) : Option (List Char × Nat) :=
  match sepUnit s with
  | none => none
  | some r =>
    match sepUnitsPlus (r.length + 1) r with
    | none => none
    | some rest =>
      let n := s.length - rest.length
      some (s.take (s.length - r.length), n)

def sepCollapseSub (s : List Char) : List Char := replaceAll mSepCollapse s

/-- Source line 228: `\|\s*p{\d+(\.\d+)?(cm|in|pt|em|ex|mm)}\s*` → `| `. -/
def mPWidth (s : List Char) : Option (List Char × Nat) :=
  match s with
  | '|' :: r =>
    match dropLit ("p\x7b".toList) (r.dropWhile isWs) with
    | none => none
    | some r2 =>
      let ds := r2.takeWhile Char.isDigit
      if ds = [] then none
      else
        let r3 := r2.drop ds.length
        let r4 :=
          match r3 with
          | '.' :: r3' =>
            let ds2 := r3'.takeWhile Char.isDigit
            if ds2 = [] then r3 else r3'.drop ds2.length
          | _ => r3
        match findName ["cm".toList, "in".toList, "pt".toList, "em".toList,
                        "ex".toList, "mm".toList] r4 with
        | none => none
        | some (_, r5) =>
          match r5 with
          | '\x7d' :: r6 =>
            let rest := r6.dropWhile isWs
            some ("| ".toList, s.length - rest.length)
          | _ => none
  | _ => none

def pWidthSub (s : List Char) : List Char := replaceAll mPWidth s

/-! ### Malformed-table recovery (source lines 231-300) -/

/-- Run detection of `malformed_table_handler`: a line with ≥ 2 pipes not
starting (after strip) with a backslash opens or continues a run; within a
run, a line with fewer than 2 pipes or a blank line closes it (end index
exclusive); other lines leave the state unchanged.  A run still open at the
end of the input is closed at `length`. -/
def findSectionsGo : Nat → Bool → Nat → List (List Char) → List (Nat × Nat)
  | i, inTab, start, [] => if inTab then [(start, i)] else []
  | i, inTab, start, l :: ls =>
    if 2 ≤ l.count '|' ∧ ¬ (("\\".toList).isPrefixOf (strip l)) then
      if inTab then findSectionsGo (i + 1) true start ls
      else findSectionsGo (i + 1) true i ls
    else if inTab ∧ (l.count '|' < 2 ∨ strip l = []) then
      (start, i) :: findSectionsGo (i + 1) false start ls
    else findSectionsGo (i + 1) inTab start ls

def findSections (ls : List (List Char)) : List (Nat × Nat) := findSectionsGo 0 false 0 ls

/-- `'| ' +`-prefix and `+ ' |'`-suffix fixes of the recovery pass. -/
def padPipes (l : List Char) : List Char :=
  let a := if ("|".toList).isPrefixOf l then l else "| ".toList ++ l
  if ("|".toList).isSuffixOf a then a else a ++ " |".toList

/-- Cleaning loop over one run: skip blank and backslash-led lines, pad each
kept line with pipes, and after the line of index 0 insert a separator row
sized by its pipe count. -/
def cleanLoop : Nat → List (List Char) → List (List Char)
  | _, [] => []
  | i, l :: ls =>
    if strip l = [] ∨ ("\\".toList).isPrefixOf (strip l) then cleanLoop (i + 1) ls
    else
      let cl := padPipes (strip l)
      if i = 0 then cl :: sepRowOf (cl.count '|' - 1) :: cleanLoop (i + 1) ls
      else cl :: cleanLoop (i + 1) ls

def cleanSection (tl : List (List Char)) : List (List Char) := cleanLoop 0 tl

/-- Replace each detected run (given by absolute indices, ascending) by the
joined cleaned run; a run whose cleaning is empty is left as-is. -/
def spliceSections : Nat → List (List Char) → List (Nat × Nat) → List (List Char)
  | _, ls, [] => ls
  | base, ls, (s, e) :: rest =>
    let pre := ls.take (s - base)
    let mid := (ls.drop (s - base)).take (e - s)
    let post := ls.drop (e - base)
    let cleaned := cleanSection mid
    pre ++ (if cleaned = [] then mid else [joinSep "\n".toList cleaned]) ++
      spliceSections e post rest

def malformed_table_handler (t : List Char) : List Char :=
  let ls := splitChar '\n' t
  joinSep "\n".toList (spliceSections 0 ls (findSections ls))

/-! ### Hyperlinks, URLs, footnotes (source lines 128-131, 309-316, 349-356) -/

/-- Scan for the first `}` immediately followed by `{`, failing at a newline
(the lazy first capture of `\\href{(.*?)}{(.*?)}`). -/
def takeToRbLb : List Char → Option (List Char × List Char)
  | [] => none
  | c :: t =>
    if c == '\x7d' && (t.head? == some '\x7b') then some ([], t.tail)
    else if c == '\n' then none
    else (takeToRbLb t).map (fun p => (c :: p.1, p.2))

def href_replacer (url text : List Char) : List Char :=
  "<a href=\"".toList ++ url ++ "\" target=\"_blank\">".toList ++ text ++ "</a>".toList

def mHref (s : List Char) : Option (List Char × Nat) :=
  match dropLit ("\\href\x7b".toList) s with
  | none => none
  | some r =>
    match takeToRbLb r with
    | none => none
    | some (g1, r2) =>
      match splitAtSubLine ("\x7d".toList) r2 with
      | none => none
      | some (g2, rest) => some (href_replacer g1 g2, s.length - rest.length)

/-- `\\url{([^{}]+)}` → `<a href="\1" target="_blank">\1</a>`. -/
def mUrl (s : List Char) : Option (List Char × Nat) :=
  match dropLit ("\\url\x7b".toList) s with
  | none => none
  | some r =>
    match takeUntilChar '\x7d' (fun c => !(c == '\x7b')) r with
    | none => none
    | some (g, rest) =>
      if g = [] then none
      else some ("<a href=\"".toList ++ g ++ "\" target=\"_blank\">".toList ++ g ++ "</a>".toList,
                 s.length - rest.length)

/-- An occurrence of `\\footnote{\\url{([^{}]+)}}` at the head: `(group1, consumed)`. -/
def footUrlAt (s : List Char) : Option (List Char × Nat) :=
  match dropLit ("\\footnote\x7b\\url\x7b".toList) s with
  | none => none
  | some r =>
    match takeUntilChar '\x7d' (fun c => !(c == '\x7b')) r with
    | none => none
    | some (g, r2) =>
      if g = [] then none
      else
        match r2 with
        | '\x7d' :: r3 => some (g, s.length - r3.length)
        | _ => none

/-- `footnote_url_replacer` (source lines 128-131). -/
def mFootnoteUrl (s : List Char) : Option (List Char × Nat) :=
  (footUrlAt s).map (fun p =>
    (" <a href=\"".toList ++ strip p.1 ++ "\" target=\"_blank\">↗</a>".toList, p.2))

/-- The title variant (source lines 335-339): every match is replaced by a
link to the url of the document-order first match. -/
def mFootUrlFixed (url : List Char) (s : List Char) : Option (List Char × Nat) :=
  (footUrlAt s).map (fun p =>
    (" <a href=\"".toList ++ url ++ "\" target=\"_blank\">↗</a>".toList, p.2))

def footUrlSearch : List Char → Option (List Char)
  | [] => none
  | c :: t =>
    match footUrlAt (c :: t) with
    | some (g, _) => some g
    | none => footUrlSearch t

/-- `\\footnote{([^{}]+)}` → ` <small>\1</small>`. -/
def mFootnotePlain (s : List Char) : Option (List Char × Nat) :=
  match dropLit ("\\footnote\x7b".toList) s with
  | none => none
  | some r =>
    match takeUntilChar '\x7d' (fun c => !(c == '\x7b')) r with
    | none => none
    | some (g, rest) =>
      if g = [] then none
      else some (" <small>".toList ++ g ++ "</small>".toList, s.length - rest.length)

/-- The rightmost `\url{` of the aggressive cleanup's first brace-free run
with a nonempty remainder; returns that remainder (the captured url). -/
def findLastUrl : List Char → Option (List Char)
  | [] => none
  | c :: t =>
    match findLastUrl t with
    | some b => some b
    | none =>
      match dropLit ("\\url\x7b".toList) (c :: t) with
      | some rest => if rest ≠ [] then some rest else none
      | none => none

/-- Source lines 655-656: `\\footnote\{[^\}]*\\url\{([^\}]+)\}[^\}]*\}`. -/
def mFootAggressive (s : List Char) : Option (List Char × Nat) :=
  match dropLit ("\\footnote\x7b".toList) s with
  | none => none
  | some r =>
    let rr := r.takeWhile (fun c => !(c == '\x7d'))
    match findLastUrl rr with
    | none => none
    | some b =>
      match r.drop rr.length with
      | '\x7d' :: r2 =>
        let cc := r2.takeWhile (fun c => !(c == '\x7d'))
        match r2.drop cc.length with
        | '\x7d' :: r3 =>
          some (" <a href=\"".toList ++ strip b ++ "\" target=\"_blank\">↗</a>".toList,
                s.length - r3.length)
        | _ => none
      | _ => none

/-! ### Color commands (source lines 359-371) -/

def spanColor (color text : List Char) : List Char :=
  "<span style=\"color:".toList ++ color ++ "\">".toList ++ text ++ "</span>".toList

/-- The lazy `(.*?)(?=\\|$)` tail of the `\color` pattern: expand until the
next backslash, the end of the string, or the position before a final
newline; fail on an interior newline. -/
def colorScan : List Char → Option (List Char)
  | [] => some []
  | c :: t =>
    if c == '\\' then some []
    else if c == '\n' then (if t = [] then some [] else none)
    else (colorScan t).map (c :: ·)

/-- `\\color{([^}]+)}(.*?)(?=\\|$)`. -/
def mColor (s : List Char) : Option (List Char × Nat) :=
  match dropLit ("\\color\x7b".toList) s with
  | none => none
  | some r =>
    match takeUntilChar '\x7d' (fun _ => true) r with
    | none => none
    | some (g1, r2) =>
      if g1 = [] then none
      else
        match colorScan r2 with
        | none => none
        | some g2 => some (spanColor g1 g2, s.length - r2.length + g2.length)

/-- `\\textcolor{([^}]+)}{([^}]+)}`. -/
def mTextcolor (s : List Char) : Option (List Char × Nat) :=
  match dropLit ("\\textcolor\x7b".toList) s with
  | none => none
  | some r =>
    match takeUntilChar '\x7d' (fun _ => true) r with
    | none => none
    | some (g1, r2) =>
      if g1 = [] then none
      else
        match r2 with
        | '\x7b' :: r3 =>
          match takeUntilChar '\x7d' (fun _ => true) r3 with
          | none => none
          | some (g2, rest) =>
            if g2 = [] then none else some (spanColor g1 g2, s.length - rest.length)
        | _ => none

/-- `{\\color{([^}]+)}([^}]+)}`. -/
def mColorBrace (s : List Char) : Option (List Char × Nat) :=
  match dropLit ("\x7b\\color\x7b".toList) s with
  | none => none
  | some r =>
    match takeUntilChar '\x7d' (fun _ => true) r with
    | none => none
    | some (g1, r2) =>
      if g1 = [] then none
      else
        match takeUntilChar '\x7d' (fun _ => true) r2 with
        | none => none
        | some (g2, rest) =>
          if g2 = [] then none else some (spanColor g1 g2, s.length - rest.length)

/-- `\\textbullet\s*` → `• `. -/
def mTextbullet (s : List Char) : Option (List Char × Nat) :=
  match dropLit ("\\textbullet".toList) s with
  | none => none
  | some r =>
    let w := r.takeWhile isWs
    some ("• ".toList, 11 + w.length)

/-! ### Images (source lines 547-583)

Python floats are modelled as exact rationals (numerator/denominator pairs);
for every width literal of the claims the float computation is exact, and
`:.0f` rounds half to even exactly as modelled.  A numeral with several dots
(on which Python's `float` would raise) is given a best-effort value from its
first two dot-separated groups. -/

def digitsToNat (s : List Char) : Nat := s.foldl (fun acc c => acc * 10 + (c.toNat - 48)) 0

def parseDecND (s : List Char) : Nat × Nat :=
  match splitChar '.' s with
  | [] => (0, 1)
  | [a] => (digitsToNat a, 1)
  | a :: b :: _ => (digitsToNat a * 10 ^ b.length + digitsToNat b, 10 ^ b.length)

/-- `{q:.0f}` for a nonnegative rational `num/den`: round half to even. -/
def roundHalfEvenND (num den : Nat) : Nat :=
  let q := num / den
  let r := num % den
  if 2 * r < den then q else if den < 2 * r then q + 1 else if q % 2 = 0 then q else q + 1

def natCharsF : Nat → Nat → List Char
  | 0, _ => []
  | f + 1, n => if n < 10 then [Nat.digitChar n] else natCharsF f (n / 10) ++ [Nat.digitChar (n % 10)]

/-- Decimal rendering of a natural number. -/
def natChars (n : Nat) : List Char := natCharsF (n + 1) n

/-- First match of `width=([\d.]+)\\textwidth` inside the options. -/
def widthSearch : List Char → Option (List Char)
  | [] => none
  | c :: t =>
    match dropLit ("width=".toList) (c :: t) with
    | some r =>
      let num := r.takeWhile (fun c => c.isDigit || c == '.')
      if num ≠ [] ∧ ("\\textwidth".toList).isPrefixOf (r.drop num.length) then some num
      else widthSearch t
    | none => widthSearch t

def isPdfPath (path : List Char) : Bool :=
  (".pdf".toList).isSuffixOf (path.map Char.toLower)

/-- `image_replacer` (source lines 547-578). -/
def image_replacer (is_widescreen : Bool) (options path : List Char) : List Char :=
  match widthSearch options with
  | some w =>
    let w' := strip w
    let nd := parseDecND w'
    let nd2 := if is_widescreen then (nd.1 * 100 * 3, nd.2 * 4) else (nd.1 * 100, nd.2)
    let pct := natChars (roundHalfEvenND nd2.1 nd2.2)
    if isPdfPath path then
      "<iframe src=\"".toList ++ path ++ "\" width=\"".toList ++ pct ++
        "%\" height=\"500px\"></iframe>".toList
    else
      "<img src=\"".toList ++ path ++ "\" width=\"".toList ++ pct ++ "%\">".toList
  | none =>
    let wp := (if is_widescreen then "80%" else "100%").toList
    if isPdfPath path then
      "<iframe src=\"".toList ++ path ++ "\" width=\"".toList ++ wp ++
        "\" height=\"500px\"></iframe>".toList
    else
      "<img src=\"".toList ++ path ++ "\" width=\"".toList ++ wp ++ "\">".toList

/-- `\\includegraphics(\[.*?\])?{(.*?)}` with `image_replacer`. -/
def mImage (ws : Bool) (s : List Char) : Option (List Char × Nat) :=
  match dropLit ("\\includegraphics".toList) s with
  | none => none
  | some r =>
    match r with
    | '[' :: r2 =>
      match takeToBrkBrace r2 with
      | none => none
      | some (inner, r3) =>
        match splitAtSubLine ("\x7d".toList) r3 with
        | none => none
        | some (path, rest) =>
          some (image_replacer ws ('[' :: (inner ++ [']'])) path, s.length - rest.length)
    | '\x7b' :: r2 =>
      match splitAtSubLine ("\x7d".toList) r2 with
      | none => none
      | some (path, rest) => some (image_replacer ws [] path, s.length - rest.length)
    | _ => none

/-! ### Figures (source lines 509-544) -/

def figure_replacer (ws : Bool) (g : List Char) : List Char :=
  let fc := strip g
  let cap := captionSearch fc
  let fc1 := match cap with
    | some c => replaceSub ("\\caption\x7b".toList ++ c ++ "\x7d".toList) [] fc
    | none => fc
  let centered := containsSub ("\\centering".toList) fc1
  let fc2 := if centered then replaceSub ("\\centering".toList) ("<center>".toList) fc1 else fc1
  let fc3 := replaceAll (mImage ws) fc2
  let capHtml := match cap with
    | some c =>
      if c ≠ [] then
        "<div style=\"text-align: center; font-style: italic; margin-top: 8px;\">".toList ++
          c ++ "</div>".toList
      else []
    | none => []
  if centered then
    "<center>\n".toList ++ strip fc3 ++ "\n".toList ++ capHtml ++ "</center>".toList
  else strip fc3 ++ "\n".toList ++ capHtml

def mFigure (ws : Bool) (s : List Char) : Option (List Char × Nat) :=
  match dropLit ("\\begin\x7bfigure\x7d".toList) s with
  | none => none
  | some r =>
    match splitAtSub ("\\end\x7bfigure\x7d".toList) r with
    | none => none
    | some (g, rest) => some (figure_replacer ws g, s.length - rest.length)

/-! ### Centering (source lines 586-592) -/

def mCenterEnv (s : List Char) : Option (List Char × Nat) :=
  match dropLit ("\\begin\x7bcenter\x7d".toList) s with
  | none => none
  | some r =>
    match splitAtSub ("\\end\x7bcenter\x7d".toList) r with
    | none => none
    | some (g, rest) =>
      some ("<center>".toList ++ strip g ++ "</center>".toList, s.length - rest.length)

/-! ### Lists (source lines 597-636) -/

/-- `re.split(r'\\item\s+', s)`. -/
def splitItemsF : Nat → List Char → List (List Char)
  | 0, s => [s]
  | _ + 1, [] => [[]]
  | f + 1, c :: t =>
    match dropLit ("\\item".toList) (c :: t) with
    | some r =>
      let w := r.takeWhile isWs
      if w = [] then consFirst c (splitItemsF f t)
      else [] :: splitItemsF f (r.drop w.length)
    | none => consFirst c (splitItemsF f t)

def splitItems (s : List Char) : List (List Char) := splitItemsF (s.length + 1) s

/-- `[item.strip() for item in re.split(r'\\item\s+', text.strip()) if item.strip()]`. -/
def itemsOf (g : List Char) : List (List Char) :=
  ((splitItems (strip g)).filter (fun it => strip it ≠ [])).map strip

def nested_itemize_replacer (g : List Char) : List Char :=
  "\n".toList ++
    joinSep "\n".toList ((itemsOf g).map (fun it => "    - ".toList ++ it)) ++ "\n".toList

def enumerate_replacer (g : List Char) : List Char :=
  "\n".toList ++
    joinSep "\n".toList (((itemsOf g).enum).map
      (fun p => natChars (p.1 + 1) ++ ". ".toList ++ p.2)) ++ "\n".toList

/-- Tempered scan of
`\\begin{itemize}((?:(?!\\begin{itemize}).)*?)\\end{itemize}`: expand lazily
to the first `\end{itemize}`, failing if a nested `\begin{itemize}` occurs
first (so only innermost environments match). -/
def temperedScanItemize : List Char → Option (List Char × List Char)
  | [] => none
  | c :: t =>
    if ("\\end\x7bitemize\x7d".toList).isPrefixOf (c :: t) then
      some ([], (c :: t).drop 13)
    else if ("\\begin\x7bitemize\x7d".toList).isPrefixOf (c :: t) then none
    else (temperedScanItemize t).map (fun p => (c :: p.1, p.2))

def mItemize (s : List Char) : Option (List Char × Nat) :=
  match dropLit ("\\begin\x7bitemize\x7d".toList) s with
  | none => none
  | some r =>
    match temperedScanItemize r with
    | none => none
    | some (g, rest) => some (nested_itemize_replacer g, s.length - rest.length)

def mEnumerate (s : List Char) : Option (List Char × Nat) :=
  match dropLit ("\\begin\x7benumerate\x7d".toList) s with
  | none => none
  | some r =>
    match splitAtSub ("\\end\x7benumerate\x7d".toList) r with
    | none => none
    | some (g, rest) => some (enumerate_replacer g, s.length - rest.length)

/-- `\\item\s+` → `- `. -/
def mItemBare (s : List Char) : Option (List Char × Nat) :=
  match dropLit ("\\item".toList) s with
  | none => none
  | some r =>
    let w := r.takeWhile isWs
    if w = [] then none else some ("- ".toList, 5 + w.length)

/-- `\\item\s+-\s+` → `- `. -/
def mItemDash (s : List Char) : Option (List Char × Nat) :=
  match dropLit ("\\item".toList) s with
  | none => none
  | some r =>
    let w := r.takeWhile isWs
    if w = [] then none
    else
      match r.drop w.length with
      | '-' :: r2 =>
        let v := r2.takeWhile isWs
        if v = [] then none else some ("- ".toList, 5 + w.length + 1 + v.length)
      | _ => none

/-! ### Structural cleanup (source lines 640-656) -/

def mCenterSpacing (s : List Char) : Option (List Char × Nat) :=
  match dropLit ("<center>".toList) s with
  | none => none
  | some r =>
    match splitAtSub ("</center>".toList) r with
    | none => none
    | some (g, rest) =>
      some ("\n<center>\n".toList ++ g ++ "\n</center>\n".toList, s.length - rest.length)

def mImgLine (s : List Char) : Option (List Char × Nat) :=
  match dropLit ("<img ".toList) s with
  | none => none
  | some r =>
    match splitAtSubLine (">".toList) r with
    | none => none
    | some (g, rest) =>
      some ("\n<img ".toList ++ g ++ ">\n".toList, s.length - rest.length)

def mIframeLine (s : List Char) : Option (List Char × Nat) :=
  match dropLit ("<iframe ".toList) s with
  | none => none
  | some r =>
    match splitAtSubLine ("</iframe>".toList) r with
    | none => none
    | some (g, rest) =>
      some ("\n<iframe ".toList ++ g ++ "</iframe>\n".toList, s.length - rest.length)

/-- `\n\s+(-\s+)` → `\n\1`. -/
def mDashIndent (s : List Char) : Option (List Char × Nat) :=
  match s with
  | '\n' :: t =>
    let w := t.takeWhile isWs
    if w = [] then none
    else
      match t.drop w.length with
      | '-' :: t2 =>
        let v := t2.takeWhile isWs
        if v = [] then none
        else some ('\n' :: '-' :: v, 1 + w.length + 1 + v.length)
      | _ => none
  | _ => none

/-- `\n\s+(•\s+)` → `\n\1`. -/
def mBulletIndent (s : List Char) : Option (List Char × Nat) :=
  match s with
  | '\n' :: t =>
    let w := t.takeWhile isWs
    if w = [] then none
    else
      match t.drop w.length with
      | '•' :: t2 =>
        let v := t2.takeWhile isWs
        if v = [] then none
        else some ('\n' :: '•' :: v, 1 + w.length + 1 + v.length)
      | _ => none
  | _ => none

/-- `\n{3,}` → `\n\n`. -/
def mNlCollapse (s : List Char) : Option (List Char × Nat) :=
  let r := s.takeWhile (fun c => c == '\n')
  if 3 ≤ r.length then some ("\n\n".toList, r.length) else none

/-- `\\begin{table.*?}(.*?)\\end{table}` (DOTALL, source line 459). -/
def mTableAny (rep : List Char → List Char → List Char) (s : List Char) :
    Option (List Char × Nat) :=
  match dropLit ("\\begin\x7btable".toList) s with
  | none => none
  | some r =>
    match splitAtSub ("\x7d".toList) r with
    | none => none
    | some (_, r2) =>
      match splitAtSub ("\\end\x7btable\x7d".toList) r2 with
      | none => none
      | some (g1, rest) =>
        let n := s.length - rest.length
        some (rep (s.take n) g1, n)

/-- `\\begin{tabular}{([^}]+)}(.*?)\\end{tabular}` (DOTALL, source line 503). -/
def mTabularEnv (s : List Char) : Option (List Char × Nat) :=
  match dropLit ("\\begin\x7btabular\x7d\x7b".toList) s with
  | none => none
  | some r =>
    match takeUntilChar '\x7d' (fun _ => true) r with
    | none => none
    | some (g1, r2) =>
      if g1 = [] then none
      else
        match splitAtSub ("\\end\x7btabular\x7d".toList) r2 with
        | none => none
        | some (g2, rest) => some (tabular_replacer g2, s.length - rest.length)

/-! ### Per-frame body translation (source lines 347-656), in source order -/

def translateBody (ws : Bool) (c0 : List Char) : List Char :=
  let c1 := replaceAll mHref c0
  let c2 := replaceAll mUrl c1
  let c3 := replaceAll mFootnoteUrl c2
  let c4 := replaceAll mFootnotePlain c3
  let c5 := replaceAll mColor c4
  let c6 := replaceAll mTextcolor c5
  let c7 := replaceAll mColorBrace c6
  let c8 := replaceAll mTextbullet c7
  let c9 := replaceAll (mTablePlain inline_table_replacer) c8
  let c10 := replaceAll (mTableBracket inline_table_replacer) c9
  let c11 := replaceAll (mTableAny inline_table_replacer) c10
  let c12 := replaceAll mTabularEnv c11
  let c13 := malformed_table_handler c12
  let c14 := replaceAll (mFigure ws) c13
  let c15 := replaceAll (mImage ws) c14
  let c16 := replaceAll mCenterEnv c15
  let c17 := replaceSub ("\\begin\x7bcenter\x7d".toList) ("<center>".toList) c16
  let c18 := replaceSub ("\\end\x7bcenter\x7d".toList) ("</center>".toList) c17
  let c19 := (fun t => replaceAll mItemize t)^[5] c18
  let c20 := replaceAll mEnumerate c19
  let c21 := replaceAll mItemBare c20
  let c22 := replaceAll mItemDash c21
  let c23 := replaceAll mCenterSpacing c22
  let c24 := replaceAll mImgLine c23
  let c25 := replaceAll mIframeLine c24
  let c26 := replaceAll mDashIndent c25
  let c27 := replaceAll mBulletIndent c26
  let c28 := replaceAll mNlCollapse c27
  replaceAll mFootAggressive c28

/-! ### Frame title handling and assembly (source lines 303-661) -/

/-- The title transformations of the general branch (source lines 331-342):
hyperlinks, then footnote-with-url (all occurrences replaced by a link to the
first match's url), then plain footnotes. -/
def titleTransform (title : List Char) : List Char :=
  let t1 := replaceAll mHref title
  let t2 :=
    match footUrlSearch t1 with
    | some u => replaceAll (mFootUrlFixed (strip u)) t1
    | none => t1
  replaceAll mFootnotePlain t2

/-- The vertically centered div of the `~`-title special case (line 323). -/
def centeredDiv (ct : List Char) : List Char :=
  ("<div style=\"display: flex; align-items: center; justify-content: center; " ++
   "height: 400px;\">\n<div style=\"font-size: 36px; text-align: center;\">").toList ++
    ct ++ "</div>\n</div>".toList

/-- The prefix tested on line 347 to skip body translation. -/
def divFlexPre : List Char := "<div style=\"display: flex;".toList

/-- One frame (title, body) to its slide text (source lines 304-659). -/
def processFrame (ws : Bool) (fr : List Char × List Char) : List Char :=
  let title := fr.1
  let content := replaceSub ("\n      ".toList) ("\n".toList) fr.2
  let st :=
    if strip title = "~".toList ∧ strip content ≠ [] then
      ("##".toList, centeredDiv (strip content))
    else if strip title = "~".toList ∨ strip title = "\x7b~\x7d".toList then
      ("##".toList, content)
    else
      let t := titleTransform title
      ((if strip t ≠ [] then "## ".toList ++ strip t else "##".toList), content)
  let c2 := if divFlexPre.isPrefixOf st.2 then st.2 else translateBody ws st.2
  "\n".toList ++ st.1 ++ "\n".toList ++ strip c2 ++ "\n".toList

/-- The tail of one frame match after the `\begin{frame}` literal:
`.*?\{(.*?)\}(.*?)\\end{frame}` with DOTALL — the first `{`, the first `}`
after it, the first `\end{frame}` after that (lazy backtracking makes this
deterministic).  Returns (title, body, rest). -/
def frameTail (r : List Char) : Option (List Char × List Char × List Char) :=
  match splitAtSub ("\x7b".toList) r with
  | none => none
  | some (_, r1) =>
    match splitAtSub ("\x7d".toList) r1 with
    | none => none
    | some (ti, r2) =>
      match splitAtSub ("\\end\x7bframe\x7d".toList) r2 with
      | none => none
      | some (body, rest) => some (ti, body, rest)

/-- `re.findall(r'\\begin{frame}.*?\{(.*?)\}(.*?)\\end{frame}', ..., re.DOTALL)`. -/
def findFramesF : Nat → List Char → List (List Char × List Char)
  | 0, _ => []
  | _ + 1, [] => []
  | f + 1, c :: t =>
    match dropLit ("\\begin\x7bframe\x7d".toList) (c :: t) with
    | some r =>
      match frameTail r with
      | some (ti, body, rest) => (ti, body) :: findFramesF f rest
      | none => findFramesF f t
    | none => findFramesF f t

def findFrames (s : List Char) : List (List Char × List Char) := findFramesF (s.length + 1) s

/-- The global passes applied to the document before frame segmentation
(source lines 62-300, in order). -/
def globalPasses (t : List Char) : List Char :=
  malformed_table_handler
    (pWidthSub
      (sepCollapseSub
        (replaceAll (mTableExtraBrace table_replacer)
          (replaceAll (mTableBracket table_replacer)
            (replaceAll (mTablePlain table_replacer)
              (fix_font_size_commands
                (verbatimSub
                  (lstlistingSub
                    (sectionSub t)))))))))

/-- `beamer_to_rmarkdown(latex_text, widescreen)` (source lines 7-661):
metadata is read from the raw text, the header is emitted, the global passes
rewrite the text, and each segmented frame is appended as a slide. -/
def beamer_to_rmarkdown (t : List Char) (widescreen : Bool) : List Char :=
  let meta := metaOf t
  let hdr := headerOf widescreen meta.1 meta.2.1
  let frames := findFrames (globalPasses t)
  hdr ++ (frames.map (processFrame widescreen)).flatten

/-- The table-translation segment of the pipeline (source lines 215-300): the
three structured table substitutions, the separator and column-width
cleanups, and the malformed-table recovery pass, in order. -/
def tableTranslate (t : List Char) : List Char :=
  malformed_table_handler
    (pWidthSub
      (sepCollapseSub
        (replaceAll (mTableExtraBrace table_replacer)
          (replaceAll (mTableBracket table_replacer)
            (replaceAll (mTablePlain table_replacer) t)))))

/-- The three structured table substitutions alone (source lines 215-221). -/
def structuredTableSubs (t : List Char) : List Char :=
  replaceAll (mTableExtraBrace table_replacer)
    (replaceAll (mTableBracket table_replacer)
      (replaceAll (mTablePlain table_replacer) t))

/-- `piece₁ ⋯ pieceₙ` occur in the text in this order, each beginning after
the end of the previous piece. -/
def containsInOrder : List (List Char) → List Char → Bool
  | [], _ => true
  | p :: ps, s =>
    match splitAtSub p s with
    | some (_, rest) => containsInOrder ps rest
    | none => false

/-- Parse a leading `N. ` of an ordered-list line. -/
def leadNum (l : List Char) : Option Nat :=
  let d := l.takeWhile Char.isDigit
  if d ≠ [] ∧ (". ".toList).isPrefixOf (l.drop d.length) then some (digitsToNat d) else none

/-- The minimal two-frame document of the round-trip claim C1: one top-level
`\section{Intro}`, a frame titled `Overview` with a two-item itemize list,
and a frame with title marker `~` and body `Thank you`. -/
def docC1 : List Char :=
  ("\\section\x7bIntro\x7d\n\\begin\x7bframe\x7d\x7bOverview\x7d\n\\begin\x7bitemize\x7d\n" ++
   "\\item First\n\\item Second\n\\end\x7bitemize\x7d\n\\end\x7bframe\x7d\n" ++
   "\\begin\x7bframe\x7d\x7b~\x7d\nThank you\n\\end\x7bframe\x7d\n").toList

/-- A document whose raw text has no slide-pattern match, yet whose global
passes create one: the typography normalizer splices `\tiny{}` out of
`\begin{fra\tiny{}me}`, leaving `\begin{frame}{t}b\end{frame}`. -/
def docNoFrameRaw : List Char :=
  "\\begin\x7bfra\\tiny\x7b\x7dme\x7d\x7bt\x7db\\end\x7bframe\x7d".toList

/-- The number of `|---|---|` separator lines of a text. -/
def sepLineCount (s : List Char) : Nat :=
  ((splitChar '\n' s).filter (fun l => l = "|---|---|".toList)).length

/-- A Markdown pipe-table as produced by the table translator itself. -/
def tableMdOut : List Char := "| a | b |\n|---|---|\n| 1 | 2 |".toList

set_option maxRecDepth 1000000

/-! ## Helper lemmas -/

theorem isPrefixOf_append_self (a b : List Char) : a.isPrefixOf (a ++ b) = true := by
  simp [ List.isPrefixOf_iff_prefix]

theorem findSub_append_isSome (pat a b : List Char) (h : (findSub pat b).isSome = true) :
    (findSub pat (a ++ b)).isSome = true := by
  induction a with
  | nil => simpa using h
  | cons c t ih =>
    show (findSub pat (c :: (t ++ b))).isSome = true
    by_cases hp : pat.isPrefixOf (c :: (t ++ b))
    · simp [findSub, hp]
    · cases hf : findSub pat (t ++ b) with
      | none => rw [hf] at ih; simp at ih
      | some n => simp [findSub, hp, hf]

theorem containsSub_append_right (pat a b : List Char) (h : containsSub pat b = true) :
    containsSub pat (a ++ b) = true :=
  findSub_append_isSome pat a b h

/-- C3: an image-inclusion with explicit width option `0.5\textwidth` is
emitted with width `50%` when the widescreen flag is false, and with width
`38%` (50 × 0.75 = 37.5, rounded half-to-even to 38) when it is true. -/
theorem claim_C3_image_width :
    image_replacer false ("[width=0.5\\textwidth]".toList) ("fig.png".toList) =
      "<img src=\"fig.png\" width=\"50%\">".toList ∧
    image_replacer true ("[width=0.5\\textwidth]".toList) ("fig.png".toList) =
      "<img src=\"fig.png\" width=\"38%\">".toList := by
  exact ⟨by decide, by decide⟩

/-- C6: on a table-environment match whose content (stripped) has no
parseable `tabular{colspec}{body}` pair and no pipe character,
`table_replacer` returns the whole matched text unchanged. -/
theorem claim_C6_table_identity (g0 g1 : List Char)
    (h1 : tabularSearch (strip g1) = none)
    (h2 : (strip g1).contains '|' = false) :
    table_replacer g0 g1 = g0 := by
  have h2' : ¬ ('|' ∈ strip g1) := by simpa using h2
  simp [table_replacer, h1, h2']

theorem claim_C6_witness :
    table_replacer ("\\begin\x7btable\x7d just text \\end\x7btable\x7d".toList)
      (" just text ".toList) =
      "\\begin\x7btable\x7d just text \\end\x7btable\x7d".toList :=
  claim_C6_table_identity _ _ (by decide) (by decide)

/-! ## C5: typography normalizer -/

theorem drop_takeWhile_length (p : Char → Bool) (r : List Char) :
    r.drop (r.takeWhile p).length = r.dropWhile p := by
  induction r with
  | nil => rfl
  | cons c t ih =>
    by_cases h : p c
    · simpa [List.takeWhile_cons, List.dropWhile_cons, h] using ih
    · simp [List.takeWhile_cons, List.dropWhile_cons, h]

theorem findName_decomp (ns : List (List Char)) (t n r : List Char)
    (h : findName ns t = some (n, r)) : t = n ++ r := by
  induction ns with
  | nil => simp [findName] at h
  | cons m ms ih =>
    by_cases hp : m.isPrefixOf t
    · simp only [findName, hp, if_true, Option.some.injEq, Prod.mk.injEq] at h
      obtain ⟨h1, h2⟩ := h
      rw [ List.isPrefixOf_iff_prefix] at hp
      obtain ⟨u, hu⟩ := hp
      subst hu
      rw [← h1, ← h2, List.drop_left]
    · simp only [findName, hp, if_false] at h
      exact ih h

theorem fontCmdAt_decomp (s m r : List Char) (h : fontCmdAt s = some (m, r)) :
    s = m ++ r ∧ m ≠ [] := by
  cases s with
  | nil => simp [fontCmdAt] at h
  | cons c t =>
    simp only [fontCmdAt] at h
    split at h
    · split at h
      · rename_i hc n rr hfn
        have ht : t = n ++ rr := findName_decomp _ _ _ _ hfn
        split at h
        · split at h
          · rename_i b r3 hdr hb
            simp only [Option.some.injEq, Prod.mk.injEq] at h
            obtain ⟨h1, h2⟩ := h
            have hrr : rr = rr.takeWhile isWs ++ (b :: r3) := by
              conv_lhs => rw [← List.takeWhile_append_dropWhile isWs rr]
              rw [← drop_takeWhile_length isWs rr, hdr]
            constructor
            · rw [← h1, ← h2]
              conv_lhs => rw [ht, hrr]
              simp
            · rw [← h1]; simp
          · simp at h
        · simp at h
      · simp at h
    · simp at h

theorem searchFont_decomp (s : List Char) : ∀ (p m r : List Char),
    searchFont s = some (p, m, r) → s = p ++ m ++ r ∧ m ≠ [] := by
  induction s with
  | nil => intro p m r h; simp [searchFont] at h
  | cons c t ih =>
    intro p m r h
    simp only [searchFont] at h
    cases hf : fontCmdAt (c :: t) with
    | some pr =>
      rw [hf] at h
      simp only [Option.some.injEq, Prod.mk.injEq] at h
      obtain ⟨h1, h2, h3⟩ := h
      have hdec := fontCmdAt_decomp (c :: t) pr.1 pr.2 (by rw [hf])
      rw [← h1, ← h2, ← h3]
      simpa using hdec
    | none =>
      rw [hf] at h
      cases hs : searchFont t with
      | none => rw [hs] at h; simp at h
      | some q =>
        obtain ⟨p', m', r'⟩ := q
        rw [hs] at h
        simp only [Option.map_some', Option.some.injEq, Prod.mk.injEq] at h
        obtain ⟨h1, h2, h3⟩ := h
        obtain ⟨hd, hm⟩ := ih p' m' r' hs
        rw [← h1, ← h2, ← h3]
        constructor
        · rw [hd]; simp
        · exact hm

theorem findCloseB_len (r : List Char) : ∀ (d : Nat) (c tl : List Char),
    findCloseB d r = some (c, tl) → r.length = c.length + 1 + tl.length := by
  induction r with
  | nil => intro d c tl h; simp [findCloseB] at h
  | cons x t ih =>
    intro d c tl h
    simp only [findCloseB] at h
    split at h
    · cases hr : findCloseB (d + 1) t with
      | none => rw [hr] at h; simp at h
      | some p =>
        rw [hr] at h
        simp only [Option.map_some', Option.some.injEq, Prod.mk.injEq] at h
        obtain ⟨hc, htl⟩ := h
        have hlen := ih (d + 1) p.1 p.2 (by rw [hr])
        rw [← hc, ← htl]
        simp only [List.length_cons]
        omega
    · split at h
      · split at h
        · simp only [Option.some.injEq, Prod.mk.injEq] at h
          obtain ⟨hc, htl⟩ := h
          rw [← hc, ← htl]
          simp only [List.length_cons, List.length_nil]
          omega
        · cases hr : findCloseB (d - 1) t with
          | none => rw [hr] at h; simp at h
          | some p =>
            rw [hr] at h
            simp only [Option.map_some', Option.some.injEq, Prod.mk.injEq] at h
            obtain ⟨hc, htl⟩ := h
            have hlen := ih (d - 1) p.1 p.2 (by rw [hr])
            rw [← hc, ← htl]
            simp only [List.length_cons]
            omega
      · cases hr : findCloseB d t with
        | none => rw [hr] at h; simp at h
        | some p =>
          rw [hr] at h
          simp only [Option.map_some', Option.some.injEq, Prod.mk.injEq] at h
          obtain ⟨hc, htl⟩ := h
          have hlen := ih d p.1 p.2 (by rw [hr])
          rw [← hc, ← htl]
          simp only [List.length_cons]
          omega

theorem fontLoop_shrink (s p m r c tl : List Char)
    (hs : searchFont s = some (p, m, r)) (hc : findCloseB 1 r = some (c, tl)) :
    (p ++ c ++ tl).length < s.length := by
  obtain ⟨hd, hm⟩ := searchFont_decomp s p m r hs
  have hr := findCloseB_len r 1 c tl hc
  have hmp : 0 < m.length := List.length_pos.mpr hm
  rw [hd]
  simp only [List.length_append]
  omega

theorem fontLoop_congr (n : Nat) : ∀ (s : List Char) (f₁ f₂ : Nat),
    s.length ≤ n → s.length < f₁ → s.length < f₂ → fontLoop f₁ s = fontLoop f₂ s := by
  induction n with
  | zero =>
    intro s f₁ f₂ h1 h2 h3
    obtain ⟨a, rfl⟩ : ∃ a, f₁ = a + 1 := ⟨f₁ - 1, by omega⟩
    obtain ⟨b, rfl⟩ : ∃ b, f₂ = b + 1 := ⟨f₂ - 1, by omega⟩
    have hs : s = [] := List.length_eq_zero.mp (by omega)
    subst hs
    simp [fontLoop, searchFont]
  | succ k ih =>
    intro s f₁ f₂ h1 h2 h3
    obtain ⟨a, rfl⟩ : ∃ a, f₁ = a + 1 := ⟨f₁ - 1, by omega⟩
    obtain ⟨b, rfl⟩ : ∃ b, f₂ = b + 1 := ⟨f₂ - 1, by omega⟩
    cases hs : searchFont s with
    | none => simp only [fontLoop, hs]
    | some pmr =>
      obtain ⟨p, m, r⟩ := pmr
      cases hc : findCloseB 1 r with
      | none => simp only [fontLoop, hs, hc]
      | some ctl =>
        obtain ⟨c, tl⟩ := ctl
        have hlt := fontLoop_shrink s p m r c tl hs hc
        simp only [fontLoop, hs, hc]
        exact ih (p ++ c ++ tl) a b (by omega) (by omega) (by omega)

/-- C5: the typography normalizer terminates on every input — any fuel above
the text length gives the fixed point `fix_font_size_commands` already
reaches — and when the first recognized font command's opening brace has no
matching close, the loop stops without error, returning the text unmodified
from that point on. -/
theorem claim_C5_font_termination :
    (∀ (s : List Char) (f : Nat), s.length < f →
        fontLoop f s = fix_font_size_commands s) ∧
    (∀ (s p m r : List Char), searchFont s = some (p, m, r) →
        findCloseB 1 r = none → fix_font_size_commands s = s) := by
  constructor
  · intro s f h
    exact fontLoop_congr s.length s f (s.length + 1) le_rfl h (by omega)
  · intro s p m r hs hc
    show fontLoop (s.length + 1) s = s
    simp only [fontLoop, hs, hc]

theorem claim_C5_witness :
    fontLoop 20 ("\\tiny\x7bab".toList) = fix_font_size_commands ("\\tiny\x7bab".toList) ∧
    fix_font_size_commands ("\\tiny\x7bab".toList) = "\\tiny\x7bab".toList :=
  ⟨claim_C5_font_termination.1 _ 20 (by decide),
   claim_C5_font_termination.2 _ [] ("\\tiny\x7b".toList) ("ab".toList)
     (by decide) (by decide)⟩

/-! ## C7: literal `{~}` titles -/

/-- C7: a frame whose captured title token strips to the literal `{~}` (not
the bare `~`) never takes the vertical-centering branch — the comparison is a
literal string comparison — so the slide gets an empty `##` heading and its
(non-empty) body goes through the normal body translation instead of being
wrapped in a centered div. -/
theorem claim_C7_brace_tilde_title (ws : Bool) (title content : List Char)
    (ht : strip title = "\x7b~\x7d".toList)
    (hne : strip (replaceSub ("\n      ".toList) ("\n".toList) content) ≠ [])
    (hdiv : divFlexPre.isPrefixOf (replaceSub ("\n      ".toList) ("\n".toList) content)
      = false) :
    processFrame ws (title, content) =
      "\n##\n".toList ++
        strip (translateBody ws (replaceSub ("\n      ".toList) ("\n".toList) content)) ++
        "\n".toList := by
  have hne2 : ¬ ("\x7b~\x7d".toList = "~".toList) := by decide
  simp only [processFrame, ht, hne2, false_and, if_false, false_or, if_pos rfl, hdiv,
    Bool.false_eq_true, if_true]
  rfl

theorem claim_C7_witness :
    processFrame false ("\x7b~\x7d".toList, "Hello".toList) =
      "\n##\n".toList ++
        strip (translateBody false
          (replaceSub ("\n      ".toList) ("\n".toList) "Hello".toList)) ++
        "\n".toList :=
  claim_C7_brace_tilde_title false _ _ (by decide) (by decide) (by decide)

/-! ## C9: metadata defaults -/

/-- C9: metadata extraction matches only the bracketed `short`+`long` command
shape and keeps the long form; when no title/author/institute command
matches, the extracted metadata is exactly the fixed defaults — title
"Untitled Presentation", author "Unknown Author", empty institute — and the
output begins with the front-matter header built from those defaults. -/
theorem claim_C9_metadata_defaults (doc : List Char) (ws : Bool)
    (h1 : bracketCmdSearch ("\\title[".toList) doc = none)
    (h2 : bracketCmdSearch ("\\author[".toList) doc = none)
    (h3 : bracketCmdSearch ("\\institute[".toList) doc = none) :
    metaOf doc = ("Untitled Presentation".toList, "Unknown Author".toList, []) ∧
    (headerOf ws ("Untitled Presentation".toList) ("Unknown Author".toList)).isPrefixOf
      (beamer_to_rmarkdown doc ws) = true := by
  have hm : metaOf doc = ("Untitled Presentation".toList, "Unknown Author".toList, []) := by
    simp at h1 h2 h3
    simp [metaOf, h1, h2, h3]
  refine ⟨hm, ?_⟩
  simp only [beamer_to_rmarkdown, hm]
  exact isPrefixOf_append_self _ _

theorem claim_C9_witness :
    metaOf ("no metadata here".toList) =
      ("Untitled Presentation".toList, "Unknown Author".toList, []) ∧
    (headerOf false ("Untitled Presentation".toList) ("Unknown Author".toList)).isPrefixOf
      (beamer_to_rmarkdown ("no metadata here".toList) false) = true :=
  claim_C9_metadata_defaults _ false (by decide) (by decide) (by decide)

/-! ## C1: minimal two-frame round trip -/

/-- C1 counterexample: the claim requires a `## Intro` heading in the output,
but text outside frame blocks is never emitted by the assembler, so the
converted minimal document does not contain `## Intro` anywhere. -/
theorem claim_C1_counterexample :
    containsSub ("## Intro".toList) (beamer_to_rmarkdown docC1 false) = false := by
  decide

/-- C1 (amended): the output for the minimal two-frame document contains, in
order, the front-matter block, a `## Overview` heading followed by the two
dash-bulleted lines, and a centered div containing `Thank you` under an
empty `##` heading; the `## Intro` heading is absent, since the section line
lies outside every frame and only frames are emitted. -/
theorem claim_C1_roundtrip_amended :
    containsInOrder
      [headerOf false ("Untitled Presentation".toList) ("Unknown Author".toList),
       "\n## Overview\n".toList, "- First\n".toList, "- Second\n".toList,
       "\n##\n<div style=\"display: flex;".toList, ">Thank you</div>\n</div>\n".toList]
      (beamer_to_rmarkdown docC1 false) = true ∧
    containsSub ("Intro".toList) (beamer_to_rmarkdown docC1 false) = false := by
  exact ⟨by decide, by decide⟩

/-! ## C10: documents with no frame -/

/-- C10 counterexample: the input `docNoFrameRaw` contains no frame block
matching the slide pattern, yet convert emits a slide after the header, so
the output is not the bare front-matter header block. -/
theorem claim_C10_counterexample :
    findFrames docNoFrameRaw = [] ∧
    beamer_to_rmarkdown docNoFrameRaw false ≠
      headerOf false ("Untitled Presentation".toList) ("Unknown Author".toList) := by
  exact ⟨by decide, by decide⟩

/-- C10 (amended): whenever the slide pattern finds no frame in the text
after the global rewrite passes, convert returns exactly the front-matter
header selected by the widescreen flag (populated from the extracted
metadata) and nothing else; both header variants contain the
`highlight: tango` line and differ only by the `    widescreen: true` line. -/
theorem claim_C10_header_only (doc : List Char) (ws : Bool)
    (h : findFrames (globalPasses doc) = []) :
    beamer_to_rmarkdown doc ws = headerOf ws (metaOf doc).1 (metaOf doc).2.1 ∧
    containsSub ("highlight: tango".toList)
      (headerOf ws (metaOf doc).1 (metaOf doc).2.1) = true ∧
    ∃ p q, headerOf true (metaOf doc).1 (metaOf doc).2.1 =
        p ++ ("    widescreen: true\n".toList) ++ q ∧
      headerOf false (metaOf doc).1 (metaOf doc).2.1 = p ++ q := by
  refine ⟨?_, ?_, ?_⟩
  · simp [beamer_to_rmarkdown, h]
  · show containsSub _ (hdrTop ++ (metaOf doc).1 ++ hdrMid ++ (metaOf doc).2.1 ++ _) = true
    refine containsSub_append_right _ _ _ ?_
    cases ws
    · exact (by decide : containsSub ("highlight: tango".toList) hdrTailStd = true)
    · exact (by decide : containsSub ("highlight: tango".toList) hdrTailWide = true)
  · refine ⟨hdrTop ++ (metaOf doc).1 ++ hdrMid ++ (metaOf doc).2.1 ++
      ("\"\ndate: \"`r Sys.Date()`\"\noutput: \n  ioslides_presentation:\n    toc: true\n" ++
       "    mathjax: true\n").toList,
      ("    highlight: tango\n---\n<style>\narticle \x7b\n  color: #000000;\n\x7d\n" ++
       "</style>\n").toList, ?_, ?_⟩
    · show hdrTop ++ (metaOf doc).1 ++ hdrMid ++ (metaOf doc).2.1 ++ hdrTailWide = _
      simp only [List.append_assoc]
      refine congrArg _ (congrArg _ (congrArg _ (congrArg _ ?_)))
      decide
    · show hdrTop ++ (metaOf doc).1 ++ hdrMid ++ (metaOf doc).2.1 ++ hdrTailStd = _
      simp only [List.append_assoc]
      refine congrArg _ (congrArg _ (congrArg _ (congrArg _ ?_)))
      decide

theorem claim_C10_witness :
    beamer_to_rmarkdown [] false = headerOf false (metaOf []).1 (metaOf []).2.1 ∧
    containsSub ("highlight: tango".toList)
      (headerOf false (metaOf []).1 (metaOf []).2.1) = true ∧
    ∃ p q, headerOf true (metaOf []).1 (metaOf []).2.1 =
        p ++ ("    widescreen: true\n".toList) ++ q ∧
      headerOf false (metaOf []).1 (metaOf []).2.1 = p ++ q :=
  claim_C10_header_only [] false (by decide)

/-! ## Lemmas about splitting and joining lines -/

theorem splitChar_ne_nil (d : Char) (l : List Char) : splitChar d l ≠ [] := by
  cases l with
  | nil => simp [splitChar]
  | cons c t =>
    by_cases hc : (c == d) = true
    · simp [splitChar, hc]
    · simp only [splitChar, hc, Bool.false_eq_true, if_false]
      cases splitChar d t <;> simp [consFirst]

theorem splitChar_no_delim (d : Char) (l : List Char) (h : d ∉ l) :
    splitChar d l = [l] := by
  induction l with
  | nil => rfl
  | cons c t ih =>
    simp only [List.mem_cons, not_or] at h
    obtain ⟨h1, h2⟩ := h
    have hc : (c == d) = false := by
      simp only [beq_eq_false_iff_ne, ne_eq]
      exact fun e => h1 e.symm
    simp [splitChar, hc, ih h2, consFirst]

theorem splitChar_append_delim (d : Char) (a b : List Char) (ha : d ∉ a) :
    splitChar d (a ++ d :: b) = a :: splitChar d b := by
  induction a with
  | nil => simp [splitChar]
  | cons c t ih =>
    simp only [List.mem_cons, not_or] at ha
    obtain ⟨h1, h2⟩ := ha
    have hc : (c == d) = false := by
      simp only [beq_eq_false_iff_ne, ne_eq]
      exact fun e => h1 e.symm
    have hstep : splitChar d (c :: (t ++ d :: b)) = consFirst c (splitChar d (t ++ d :: b)) := by
      simp [splitChar, hc]
    rw [List.cons_append, hstep, ih h2]
    rfl

theorem splitChar_join (d : Char) (xs : List (List Char)) (hne : xs ≠ [])
    (h : ∀ x ∈ xs, d ∉ x) :
    splitChar d (joinSep [d] xs) = xs := by
  induction xs with
  | nil => contradiction
  | cons x rest ih =>
    cases rest with
    | nil => exact splitChar_no_delim d x (h x (List.mem_cons_self x []))
    | cons y r2 =>
      have hj : joinSep [d] (x :: y :: r2) = x ++ d :: joinSep [d] (y :: r2) := by
        simp [joinSep]
      rw [hj, splitChar_append_delim d x _ (h x (List.mem_cons_self x _)),
        ih (by simp) (fun z hz => h z (List.mem_cons_of_mem _ hz))]

theorem splitChar_append_last (d : Char) (s : List Char) :
    splitChar d (s ++ [d]) = splitChar d s ++ [[]] := by
  induction s with
  | nil => simp [splitChar]
  | cons c t ih =>
    by_cases hc : (c == d) = true
    · simp [splitChar, hc, ih]
    · have hstep1 : splitChar d (c :: (t ++ [d])) = consFirst c (splitChar d (t ++ [d])) := by
        simp [splitChar, hc]
      have hstep2 : splitChar d (c :: t) = consFirst c (splitChar d t) := by
        simp [splitChar, hc]
      rw [List.cons_append, hstep1, hstep2, ih]
      cases hsp : splitChar d t with
      | nil => exact absurd hsp (splitChar_ne_nil d t)
      | cons u us => simp [consFirst]

/-! ## C2: malformed-table recovery -/

theorem mem_dropWhile_of_mem (p : Char → Bool) (l : List Char) (c : Char)
    (hc : c ∈ l) (hp : p c = false) : c ∈ l.dropWhile p := by
  have hsplit := List.takeWhile_append_dropWhile p l
  rw [← hsplit] at hc
  rcases List.mem_append.mp hc with hm | hm
  · exact absurd (List.mem_takeWhile_imp hm) (by simp [hp])
  · exact hm

theorem mem_strip (l : List Char) (c : Char) (hc : c ∈ l) (hp : isWs c = false) :
    c ∈ strip l := by
  unfold strip lstrip rstrip
  refine mem_dropWhile_of_mem _ _ _ ?_ hp
  rw [List.mem_reverse]
  refine mem_dropWhile_of_mem _ _ _ ?_ hp
  rw [List.mem_reverse]
  exact hc

theorem strip_ne_nil_of_pipes (l : List Char) (h : 2 ≤ l.count '|') : strip l ≠ [] := by
  have hmem : '|' ∈ l := List.count_pos_iff.mp (by omega)
  exact List.ne_nil_of_mem (mem_strip l '|' hmem (by decide))

theorem findSectionsGo_all (ls : List (List Char)) : ∀ (i st : Nat),
    (∀ l ∈ ls, 2 ≤ l.count '|' ∧ (("\\".toList).isPrefixOf (strip l)) = false) →
    findSectionsGo i true st ls = [(st, i + ls.length)] := by
  induction ls with
  | nil => intro i st _; simp [findSectionsGo]
  | cons l rest ih =>
    intro i st h
    obtain ⟨h1, h2⟩ := h l (List.mem_cons_self l rest)
    have hcond : 2 ≤ l.count '|' ∧ ¬ ((("\\".toList).isPrefixOf (strip l)) = true) :=
      ⟨h1, by rw [h2]; simp⟩
    simp only [findSectionsGo, if_pos hcond, if_true]
    rw [ih (i + 1) st (fun x hx => h x (List.mem_cons_of_mem _ hx))]
    have : i + 1 + rest.length = i + (rest.length + 1) := by omega
    simp [this]

theorem findSections_all (l0 : List Char) (ls : List (List Char))
    (h : ∀ l ∈ l0 :: ls, 2 ≤ l.count '|' ∧ (("\\".toList).isPrefixOf (strip l)) = false) :
    findSections (l0 :: ls) = [(0, (l0 :: ls).length)] := by
  obtain ⟨h1, h2⟩ := h l0 (List.mem_cons_self l0 ls)
  have hcond : 2 ≤ l0.count '|' ∧ ¬ ((("\\".toList).isPrefixOf (strip l0)) = true) :=
    ⟨h1, by rw [h2]; simp⟩
  unfold findSections
  simp only [findSectionsGo, if_pos hcond, if_false, Bool.false_eq_true]
  rw [findSectionsGo_all ls 1 0 (fun x hx => h x (List.mem_cons_of_mem _ hx))]
  simp [Nat.add_comm]

theorem cleanLoop_pos (ls : List (List Char)) : ∀ i : Nat, i ≠ 0 →
    (∀ l ∈ ls, strip l ≠ [] ∧ (("\\".toList).isPrefixOf (strip l)) = false) →
    cleanLoop i ls = ls.map (fun l => padPipes (strip l)) := by
  induction ls with
  | nil => intro i _ _; simp [cleanLoop]
  | cons l rest ih =>
    intro i hi h
    obtain ⟨h1, h2⟩ := h l (List.mem_cons_self l rest)
    have hskip : ¬ (strip l = [] ∨ (("\\".toList).isPrefixOf (strip l)) = true) :=
      not_or.mpr ⟨h1, by rw [h2]; simp⟩
    simp only [cleanLoop, if_neg hskip, if_neg hi]
    rw [ih (i + 1) (by omega) (fun x hx => h x (List.mem_cons_of_mem _ hx))]
    simp

theorem cleanSection_cons (l0 : List Char) (ls : List (List Char))
    (h : ∀ l ∈ l0 :: ls, strip l ≠ [] ∧ (("\\".toList).isPrefixOf (strip l)) = false) :
    cleanSection (l0 :: ls) =
      padPipes (strip l0) :: sepRowOf ((padPipes (strip l0)).count '|' - 1) ::
        ls.map (fun l => padPipes (strip l)) := by
  obtain ⟨h1, h2⟩ := h l0 (List.mem_cons_self l0 ls)
  have hskip : ¬ (strip l0 = [] ∨ (("\\".toList).isPrefixOf (strip l0)) = true) :=
    not_or.mpr ⟨h1, by rw [h2]; simp⟩
  unfold cleanSection
  simp only [cleanLoop, if_neg hskip, if_pos rfl]
  rw [cleanLoop_pos ls 1 (by omega) (fun x hx => h x (List.mem_cons_of_mem _ hx))]
  simp

theorem spliceSections_single (ls : List (List Char)) (hcl : cleanSection ls ≠ []) :
    spliceSections 0 ls [(0, ls.length)] =
      [joinSep ("\n".toList) (cleanSection ls)] := by
  simp only [spliceSections, Nat.sub_zero, Nat.sub_self, List.take_zero, List.drop_zero,
    List.take_length, List.drop_length, hcl, if_neg hcl, List.nil_append, List.append_nil]
  simp

theorem padPipes_head (l : List Char) : (padPipes l).head? = some '|' := by
  unfold padPipes
  by_cases hp : (("|".toList).isPrefixOf l) = true
  · rw [if_pos hp]
    rw [ List.isPrefixOf_iff_prefix] at hp
    obtain ⟨u, hu⟩ := hp
    by_cases hs : (("|".toList).isSuffixOf l) = true
    · rw [if_pos hs, ← hu]; rfl
    · rw [if_neg hs, ← hu]; rfl
  · rw [if_neg hp]
    by_cases hs : (("|".toList).isSuffixOf ("| ".toList ++ l)) = true
    · rw [if_pos hs]; rfl
    · rw [if_neg hs]; rfl

theorem padPipes_last (l : List Char) : (padPipes l).getLast? = some '|' := by
  unfold padPipes
  by_cases hs : (("|".toList).isSuffixOf (if ("|".toList).isPrefixOf l then l
      else "| ".toList ++ l)) = true
  · rw [if_pos hs]
    rw [List.isSuffixOf_iff_suffix] at hs
    obtain ⟨u, hu⟩ := hs
    rw [← hu]
    exact List.getLast?_concat u
  · rw [if_neg hs]
    have : (if ("|".toList).isPrefixOf l then l else "| ".toList ++ l) ++ " |".toList =
        ((if ("|".toList).isPrefixOf l then l else "| ".toList ++ l) ++ [' ']) ++ ['|'] := by
      simp
    rw [this]
    exact List.getLast?_concat _

theorem sepRowOf_head (n : Nat) : (sepRowOf n).head? = some '|' := rfl

theorem sepRowOf_last (n : Nat) : (sepRowOf n).getLast? = some '|' := by
  unfold sepRowOf
  rw [List.append_assoc]
  have : joinSep ("|".toList) (List.replicate n ("---".toList)) ++ "|".toList =
      joinSep ("|".toList) (List.replicate n ("---".toList)) ++ ['|'] := rfl
  rw [this, ← List.append_assoc]
  exact List.getLast?_concat _

/-- C2 counterexample: feeding the recovery pass a run whose separator row is
already present still inserts another separator directly beneath the first
row, so the output has two separator rows, not "exactly one … only if one is
not already present". -/
theorem claim_C2_counterexample :
    malformed_table_handler ("| a | b |\n|---|---|".toList) =
      "| a | b |\n|---|---|\n|---|---|".toList ∧
    sepLineCount ("| a | b |\n|---|---|".toList) = 1 ∧
    sepLineCount (malformed_table_handler ("| a | b |\n|---|---|".toList)) = 2 := by
  exact ⟨by decide, by decide, by decide⟩

/-- C2 (amended): on a run of consecutive lines each containing at least two
pipes, not starting with a backslash (and single-line), the recovery pass
forces every output line of the run to start and end with a pipe and inserts
one header separator row directly beneath the first content row
unconditionally — even when a separator row is already present. -/
theorem claim_C2_run_recovery (l0 : List Char) (ls : List (List Char))
    (h : ∀ l ∈ l0 :: ls, 2 ≤ l.count '|' ∧
      (("\\".toList).isPrefixOf (strip l)) = false ∧ '\n' ∉ l) :
    malformed_table_handler (joinSep ("\n".toList) (l0 :: ls)) =
      joinSep ("\n".toList)
        (padPipes (strip l0) :: sepRowOf ((padPipes (strip l0)).count '|' - 1) ::
          ls.map (fun l => padPipes (strip l))) ∧
    ∀ l' ∈ padPipes (strip l0) :: sepRowOf ((padPipes (strip l0)).count '|' - 1) ::
        ls.map (fun l => padPipes (strip l)),
      l'.head? = some '|' ∧ l'.getLast? = some '|' := by
  have hns : ∀ l ∈ l0 :: ls, strip l ≠ [] ∧ (("\\".toList).isPrefixOf (strip l)) = false :=
    fun l hl => ⟨strip_ne_nil_of_pipes l (h l hl).1, (h l hl).2.1⟩
  constructor
  · have hsplit : splitChar '\n' (joinSep ("\n".toList) (l0 :: ls)) = l0 :: ls := by
      have he : ("\n".toList) = ['\n'] := rfl
      rw [he]
      exact splitChar_join '\n' (l0 :: ls) (by simp) (fun x hx => (h x hx).2.2)
    have hun : malformed_table_handler (joinSep ("\n".toList) (l0 :: ls)) =
        joinSep ("\n".toList) (spliceSections 0 (l0 :: ls) (findSections (l0 :: ls))) := by
      unfold malformed_table_handler
      rw [hsplit]
    rw [hun, findSections_all l0 ls (fun x hx => ⟨(h x hx).1, (h x hx).2.1⟩)]
    have hclean := cleanSection_cons l0 ls hns
    rw [spliceSections_single _ (by rw [hclean]; simp), hclean]
    rfl
  · intro l' hl'
    rcases List.mem_cons.mp hl' with rfl | hl'
    · exact ⟨padPipes_head _, padPipes_last _⟩
    · rcases List.mem_cons.mp hl' with rfl | hl'
      · exact ⟨sepRowOf_head _, sepRowOf_last _⟩
      · obtain ⟨x, _, rfl⟩ := List.mem_map.mp hl'
        exact ⟨padPipes_head _, padPipes_last _⟩

theorem claim_C2_witness :
    malformed_table_handler (joinSep ("\n".toList)
        ["| a | b |".toList, "|---|---|".toList]) =
      joinSep ("\n".toList)
        (padPipes (strip ("| a | b |".toList)) ::
          sepRowOf ((padPipes (strip ("| a | b |".toList))).count '|' - 1) ::
          [("|---|---|".toList)].map (fun l => padPipes (strip l))) ∧
    ∀ l' ∈ padPipes (strip ("| a | b |".toList)) ::
        sepRowOf ((padPipes (strip ("| a | b |".toList))).count '|' - 1) ::
        [("|---|---|".toList)].map (fun l => padPipes (strip l)),
      l'.head? = some '|' ∧ l'.getLast? = some '|' :=
  claim_C2_run_recovery ("| a | b |".toList) [("|---|---|".toList)] (by decide)

/-! ## C4: idempotence of the table translation -/

theorem findSub_none (pat : List Char) : ∀ s : List Char, findSub pat s = none →
    ∀ t, t <:+ s → pat.isPrefixOf t = false := by
  intro s
  induction s with
  | nil =>
    intro h t ht
    have ht' : t = [] := List.suffix_nil.mp ht
    subst ht'
    cases hp : pat with
    | nil => rw [hp] at h; simp [findSub] at h
    | cons c cs => rfl
  | cons c s' ih =>
    intro h t ht
    have h1 : pat.isPrefixOf (c :: s') = false := by
      cases hb : pat.isPrefixOf (c :: s') with
      | false => rfl
      | true => simp [findSub, hb] at h
    have h2 : findSub pat s' = none := by
      have := h
      simp only [findSub, h1, Bool.false_eq_true, if_false] at this
      exact Option.map_eq_none'.mp this
    rcases List.suffix_cons_iff.mp ht with rfl | ht'
    · exact h1
    · exact ih h2 t ht'

theorem replaceAllF_id (m : List Char → Option (List Char × Nat)) (f : Nat) :
    ∀ s : List Char, (∀ t, t <:+ s → m t = none) → replaceAllF m f s = s := by
  induction f with
  | zero => intro s _; rfl
  | succ g ih =>
    intro s hm
    cases s with
    | nil => rfl
    | cons c t =>
      have h0 : m (c :: t) = none := hm _ (List.suffix_refl _)
      simp only [replaceAllF, h0]
      rw [ih t (fun u hu => hm u (hu.trans (List.suffix_cons c t)))]

theorem dropLit_none (pat t : List Char) (h : pat.isPrefixOf t = false) :
    dropLit pat t = none := by
  unfold dropLit
  rw [h]
  simp

theorem isPrefixOf_longer_false (t : List Char)
    (h : ("\\begin\x7btable".toList).isPrefixOf t = false) :
    ("\\begin\x7btable\x7d".toList).isPrefixOf t = false := by
  cases hb : ("\\begin\x7btable\x7d".toList).isPrefixOf t with
  | false => rfl
  | true =>
    exfalso
    rw [ List.isPrefixOf_iff_prefix] at hb
    have hpre : ("\\begin\x7btable".toList) <+: t :=
      List.IsPrefix.trans
        (by decide : ("\\begin\x7btable".toList) <+: ("\\begin\x7btable\x7d".toList)) hb
    rw [← List.isPrefixOf_iff_prefix, h] at hpre
    cases hpre

theorem mTablePlain_none (rep : List Char → List Char → List Char) (t : List Char)
    (h : ("\\begin\x7btable".toList).isPrefixOf t = false) :
    mTablePlain rep t = none := by
  unfold mTablePlain
  rw [dropLit_none _ _ (isPrefixOf_longer_false t h)]

theorem mTableBracket_none (rep : List Char → List Char → List Char) (t : List Char)
    (h : ("\\begin\x7btable".toList).isPrefixOf t = false) :
    mTableBracket rep t = none := by
  unfold mTableBracket
  rw [dropLit_none _ _ h]

theorem mTableExtraBrace_none (rep : List Char → List Char → List Char) (t : List Char)
    (h : ("\\begin\x7btable".toList).isPrefixOf t = false) :
    mTableExtraBrace rep t = none := by
  unfold mTableExtraBrace
  rw [dropLit_none _ _ (isPrefixOf_longer_false t h)]

theorem structuredTableSubs_id (t : List Char)
    (h : containsSub ("\\begin\x7btable".toList) t = false) :
    structuredTableSubs t = t := by
  have hf : findSub ("\\begin\x7btable".toList) t = none := by
    unfold containsSub at h
    cases hfs : findSub ("\\begin\x7btable".toList) t with
    | none => rfl
    | some n => rw [hfs] at h; simp at h
  have hpre := findSub_none _ _ hf
  unfold structuredTableSubs replaceAll
  rw [replaceAllF_id _ _ _ (fun u hu => mTablePlain_none _ u (hpre u hu)),
    replaceAllF_id _ _ _ (fun u hu => mTableBracket_none _ u (hpre u hu)),
    replaceAllF_id _ _ _ (fun u hu => mTableExtraBrace_none _ u (hpre u hu))]

/-- C4 counterexample: the table-translation passes applied to their own
Markdown pipe-table output — which contains no LaTeX table marker — do not
leave it unchanged. -/
theorem claim_C4_counterexample :
    containsSub ("\\begin\x7btable".toList) tableMdOut = false ∧
    tableTranslate tableMdOut ≠ tableMdOut := by
  exact ⟨by decide, by decide⟩

/-- C4 (amended): the structured table replacer passes are identity on any
text without a `\begin{table` marker, but the malformed-table recovery pass
is not idempotent: on the translator's own pipe-table output it inserts a
second header separator row beneath the first row, so the combined table
translation changes its own output. -/
theorem claim_C4_not_idempotent :
    (∀ t : List Char, containsSub ("\\begin\x7btable".toList) t = false →
      structuredTableSubs t = t) ∧
    tableTranslate tableMdOut =
      "| a | b |\n|---|---|\n|---|---|\n| 1 | 2 |".toList := by
  exact ⟨structuredTableSubs_id, by decide⟩

theorem claim_C4_witness :
    structuredTableSubs ("hello".toList) = "hello".toList :=
  claim_C4_not_idempotent.1 _ (by decide)

/-! ## C8: list items -/

theorem digitsToNat_append (a : List Char) (c : Char) :
    digitsToNat (a ++ [c]) = digitsToNat a * 10 + (c.toNat - 48) := by
  unfold digitsToNat
  rw [List.foldl_append]
  rfl

theorem digitChar_facts : ∀ d : Nat, d < 10 →
    (Nat.digitChar d).isDigit = true ∧ (Nat.digitChar d).toNat - 48 = d := by decide

theorem natCharsF_spec (n : Nat) : ∀ f : Nat, n < f →
    (∀ c ∈ natCharsF f n, c.isDigit = true) ∧
    digitsToNat (natCharsF f n) = n ∧ natCharsF f n ≠ [] := by
  induction n using Nat.strong_induction_on with
  | _ n ih =>
    intro f hf
    obtain ⟨g, rfl⟩ : ∃ g, f = g + 1 := ⟨f - 1, by omega⟩
    by_cases h10 : n < 10
    · simp only [natCharsF, if_pos h10]
      obtain ⟨hd, hv⟩ := digitChar_facts n h10
      refine ⟨?_, ?_, by simp⟩
      · intro c hc
        simp only [List.mem_singleton] at hc
        rw [hc]
        exact hd
      · show digitsToNat ([] ++ [Nat.digitChar n]) = n
        rw [digitsToNat_append]
        simpa [digitsToNat] using hv
    · simp only [natCharsF, if_neg h10]
      have hdiv : n / 10 < n := Nat.div_lt_self (by omega) (by omega)
      obtain ⟨h1, h2, _⟩ := ih (n / 10) hdiv g (by omega)
      have hmod : n % 10 < 10 := Nat.mod_lt _ (by omega)
      obtain ⟨hd, hv⟩ := digitChar_facts _ hmod
      refine ⟨?_, ?_, by simp⟩
      · intro c hc
        rcases List.mem_append.mp hc with hm | hm
        · exact h1 c hm
        · simp only [List.mem_singleton] at hm
          rw [hm]
          exact hd
      · rw [digitsToNat_append, h2, hv]
        omega

theorem natChars_spec (n : Nat) :
    (∀ c ∈ natChars n, c.isDigit = true) ∧ digitsToNat (natChars n) = n ∧ natChars n ≠ [] :=
  natCharsF_spec n (n + 1) (by omega)

theorem ne_nl_of_digit (c : Char) (h : c.isDigit = true) : c ≠ '\n' := by
  intro hc
  subst hc
  exact absurd h (by decide)

theorem takeWhile_append_not (p : Char → Bool) (a : List Char) (c : Char) (b : List Char)
    (ha : ∀ x ∈ a, p x = true) (hc : p c = false) :
    (a ++ c :: b).takeWhile p = a := by
  induction a with
  | nil => simp [List.takeWhile_cons, hc]
  | cons x t ih =>
    have hx := ha x (List.mem_cons_self x t)
    simp [List.takeWhile_cons, hx, ih (fun y hy => ha y (List.mem_cons_of_mem _ hy))]

theorem leadNum_numbered (k : Nat) (it : List Char) :
    leadNum (natChars (k + 1) ++ ". ".toList ++ it) = some (k + 1) := by
  obtain ⟨hdig, hval, hne⟩ := natChars_spec (k + 1)
  have hassoc : natChars (k + 1) ++ ". ".toList ++ it =
      natChars (k + 1) ++ ('.' :: (' ' :: it)) := by
    rw [List.append_assoc]
    rfl
  have htw : (natChars (k + 1) ++ ('.' :: (' ' :: it))).takeWhile Char.isDigit =
      natChars (k + 1) :=
    takeWhile_append_not Char.isDigit _ _ _ hdig (by decide)
  rw [hassoc]
  simp only [leadNum, htw, List.drop_left]
  have hpre : (". ".toList).isPrefixOf ('.' :: (' ' :: it)) = true :=
    isPrefixOf_append_self (". ".toList) it
  rw [hpre, if_pos ⟨hne, rfl⟩, hval]

theorem filterMap_leadNum_enumFrom (its : List (List Char)) : ∀ n : Nat,
    List.filterMap leadNum
      ((List.enumFrom n its).map (fun p => natChars (p.1 + 1) ++ ". ".toList ++ p.2)) =
      List.range' (n + 1) its.length := by
  induction its with
  | nil => intro n; rfl
  | cons it rest ih =>
    intro n
    show List.filterMap leadNum
        ((natChars (n + 1) ++ ". ".toList ++ it) ::
          (List.enumFrom (n + 1) rest).map (fun p => natChars (p.1 + 1) ++ ". ".toList ++ p.2)) =
      List.range' (n + 1) (rest.length + 1)
    rw [List.filterMap_cons, leadNum_numbered n it, ih (n + 1)]
    rfl

theorem splitChar_nl_cons (x : List Char) :
    splitChar '\n' ('\n' :: x) = [] :: splitChar '\n' x := by
  simp [splitChar]

theorem countP_lines_bullets (its : List (List Char)) (h : ∀ it ∈ its, '\n' ∉ it) :
    (splitChar '\n'
        ("\n".toList ++
          joinSep ("\n".toList) (its.map (fun it => "    - ".toList ++ it)) ++
          "\n".toList)).countP
      (fun l => ("    - ".toList).isPrefixOf l) = its.length := by
  cases its with
  | nil => decide
  | cons i0 rest =>
    have hmem : ∀ x ∈ (i0 :: rest).map (fun it => "    - ".toList ++ it), '\n' ∉ x := by
      intro x hx
      obtain ⟨it, hit, rfl⟩ := List.mem_map.mp hx
      intro hmm
      rcases List.mem_append.mp hmm with hm | hm
      · exact absurd hm (by decide)
      · exact h it hit hm
    have hJ : splitChar '\n'
        (joinSep ['\n'] ((i0 :: rest).map (fun it => "    - ".toList ++ it))) =
        (i0 :: rest).map (fun it => "    - ".toList ++ it) :=
      splitChar_join _ _ (by simp) hmem
    show (splitChar '\n'
        ('\n' :: (joinSep ['\n'] ((i0 :: rest).map (fun it => "    - ".toList ++ it)) ++
          ['\n']))).countP _ = _
    rw [splitChar_nl_cons, splitChar_append_last, hJ, List.countP_cons, List.countP_append,
      List.countP_cons]
    have hp1 : (fun l => (("    - ".toList).isPrefixOf l)) ([] : List Char) = false := by decide
    have hall : ((i0 :: rest).map (fun it => "    - ".toList ++ it)).countP
        (fun l => (("    - ".toList).isPrefixOf l)) =
        ((i0 :: rest).map (fun it => "    - ".toList ++ it)).length := by
      rw [List.countP_eq_length]
      intro a ha
      obtain ⟨it, _, rfl⟩ := List.mem_map.mp ha
      exact isPrefixOf_append_self _ _
    rw [hall]
    simp [hp1]

theorem filterMap_lines_numbers (its : List (List Char)) (h : ∀ it ∈ its, '\n' ∉ it) :
    (splitChar '\n'
        ("\n".toList ++
          joinSep ("\n".toList)
            ((its.enum).map (fun p => natChars (p.1 + 1) ++ ". ".toList ++ p.2)) ++
          "\n".toList)).filterMap leadNum = List.range' 1 its.length := by
  cases its with
  | nil => decide
  | cons i0 rest =>
    have snd_mem : ∀ (l : List (List Char)) (n : Nat) (p : Nat × List Char),
        p ∈ List.enumFrom n l → p.2 ∈ l := by
      intro l
      induction l with
      | nil => intro n p hp; simp at hp
      | cons x t ih =>
        intro n p hp
        rw [List.enumFrom_cons] at hp
        rcases List.mem_cons.mp hp with rfl | hp'
        · exact List.mem_cons_self x t
        · exact List.mem_cons_of_mem _ (ih (n + 1) p hp')
    have hmem : ∀ x ∈ ((i0 :: rest).enum).map
        (fun p => natChars (p.1 + 1) ++ ". ".toList ++ p.2), '\n' ∉ x := by
      intro x hx
      obtain ⟨p, hp, rfl⟩ := List.mem_map.mp hx
      intro hmm
      rcases List.mem_append.mp hmm with hm | hm
      · rcases List.mem_append.mp hm with hm2 | hm2
        · exact absurd rfl (ne_nl_of_digit '\n' ((natChars_spec (p.1 + 1)).1 '\n' hm2))
        · exact absurd hm2 (by decide)
      · exact h p.2 (snd_mem _ 0 p hp) hm
    have hne : ((i0 :: rest).enum).map
        (fun p => natChars (p.1 + 1) ++ ". ".toList ++ p.2) ≠ [] := by
      show ((List.enumFrom 0 (i0 :: rest)).map _) ≠ []
      rw [List.enumFrom_cons]
      simp
    have hJ : splitChar '\n'
        (joinSep ['\n'] (((i0 :: rest).enum).map
          (fun p => natChars (p.1 + 1) ++ ". ".toList ++ p.2))) =
        ((i0 :: rest).enum).map (fun p => natChars (p.1 + 1) ++ ". ".toList ++ p.2) :=
      splitChar_join _ _ hne hmem
    show (splitChar '\n'
        ('\n' :: (joinSep ['\n'] (((i0 :: rest).enum).map
          (fun p => natChars (p.1 + 1) ++ ". ".toList ++ p.2)) ++ ['\n']))).filterMap leadNum = _
    rw [splitChar_nl_cons, splitChar_append_last, hJ, List.filterMap_cons,
      List.filterMap_append, List.filterMap_cons]
    have hnone : leadNum [] = none := by decide
    simp only [hnone, List.filterMap_nil, List.append_nil]
    exact filterMap_leadNum_enumFrom (i0 :: rest) 0

/-- C8: for an itemize environment, the number of emitted dash-bulleted lines
equals the number of non-empty segments obtained by splitting the content on
the item marker; for an enumerate environment the leading numbers of the
emitted lines are exactly 1..N in order (items assumed single-line, so that
lines and items correspond). -/
theorem claim_C8_list_items (g : List Char) (h : ∀ it ∈ itemsOf g, '\n' ∉ it) :
    ((splitChar '\n' (nested_itemize_replacer g)).countP
      (fun l => ("    - ".toList).isPrefixOf l)) = (itemsOf g).length ∧
    (splitChar '\n' (enumerate_replacer g)).filterMap leadNum =
      List.range' 1 (itemsOf g).length :=
  ⟨countP_lines_bullets (itemsOf g) h, filterMap_lines_numbers (itemsOf g) h⟩

theorem claim_C8_witness :
    ((splitChar '\n' (nested_itemize_replacer (" \\item a\n\\item b ".toList))).countP
      (fun l => ("    - ".toList).isPrefixOf l)) =
      (itemsOf (" \\item a\n\\item b ".toList)).length ∧
    (splitChar '\n' (enumerate_replacer (" \\item a\n\\item b ".toList))).filterMap leadNum =
      List.range' 1 (itemsOf (" \\item a\n\\item b ".toList)).length :=
  claim_C8_list_items (" \\item a\n\\item b ".toList) (by decide)

end B2R
